import Mathlib

set_option maxHeartbeats 1000000

/-!
Verification of the feed-aggregation core of `yt-feed-aggregator`.

Shallow embedding of:
* `app/feed/aggregator.py` — `is_short`, `make_cursor`, `decode_cursor`,
  `aggregate_feeds`;
* `app/api/routes_feed.py` — the cursor-format validation performed by the
  `get_feed` endpoint before the cursor reaches the aggregator;
* `app/rss/cache.py` — `fetch_and_cache_feed` (cache-first fetch with
  TTL+splay, entry-level skipping, document-level soft-fail).

Modelling conventions:
* Python `datetime` values are modelled by their number of microseconds since
  the epoch (an `Int`); `datetime` carries exactly microsecond precision, and
  comparison of timezone-aware datetimes is comparison of these instants.
  `d.timestamp()` is the exact rational `published / 10^6`; comparisons of
  that value against integers are cleared of denominators (`ts < t` iff
  `published < t * 10^6`).  Python `int(...)` truncates toward zero, which is
  `Int.tdiv` on the numerator.
* Python strings are modelled by Lean `String` (sequences of Unicode scalar
  values); Python string comparison is lexicographic by code point, which is
  the `String` linear order.
* `base64` and `json` (CPython standard library) are modelled executably on
  the domain the claims exercise: base64 over properly padded input in either
  the standard or the urlsafe alphabet, `json` over objects whose values are
  integers and strings (exactly the shape `make_cursor` emits, with
  `ensure_ascii` escaping).
-/

namespace YtFeed

/-! ## Data model: `app/rss/models.py` -/

/-- One entry of a channel feed (`FeedItem` in `app/rss/models.py`).
`published` is the instant of the `datetime`, in microseconds since the
epoch. `link` is the serialized URL string (`str(item.link)`). -/
structure FeedItem where
  video_id : String
  channel_id : String
  title : String
  link : String
  published : Int
deriving DecidableEq, Repr

/-! ## Sort key order

`aggregate_feeds` sorts by the Python tuple `(i.published, i.video_id)` with
`reverse=True`.  Python tuple comparison is lexicographic; datetime
comparison is instant comparison; string comparison is code-point
lexicographic. -/

/-- Sort key of an item: the Python tuple `(i.published, i.video_id)`
(`aggregator.py` line 85). -/
def itemKey (x : FeedItem) : Int × String := (x.published, x.video_id)

/-- Strict lexicographic comparison of character lists by code point —
Python string comparison. -/
def charListLt : List Char → List Char → Bool
  | [], [] => false
  | [], _ :: _ => true
  | _ :: _, [] => false
  | a :: as, b :: bs =>
    if a.toNat < b.toNat then true
    else if b.toNat < a.toNat then false
    else charListLt as bs

/-- Python `s < t` on strings. -/
def strLtB (s t : String) : Bool := charListLt s.data t.data

theorem charListLt_irrefl (l : List Char) : charListLt l l = false := by
  induction l with
  | nil => rfl
  | cons a as ih =>
    rw [charListLt, if_neg (lt_irrefl _), if_neg (lt_irrefl _)]
    exact ih

theorem charListLt_trans : ∀ (x y z : List Char),
    charListLt x y = true → charListLt y z = true → charListLt x z = true
  | [], [], _, h1, _ => by cases h1
  | [], _ :: _, [], _, h2 => by cases h2
  | [], _ :: _, _ :: _, _, _ => rfl
  | _ :: _, [], _, h1, _ => by cases h1
  | _ :: _, _ :: _, [], _, h2 => by cases h2
  | a :: as, b :: bs, c :: cs, h1, h2 => by
    rw [charListLt] at h1 h2 ⊢
    by_cases hab : a.toNat < b.toNat
    · by_cases hbc : b.toNat < c.toNat
      · rw [if_pos (by omega)]
      · rw [if_neg hbc] at h2
        by_cases hcb : c.toNat < b.toNat
        · rw [if_pos hcb] at h2; cases h2
        · rw [if_pos (by omega)]
    · rw [if_neg hab] at h1
      by_cases hba : b.toNat < a.toNat
      · rw [if_pos hba] at h1; cases h1
      · rw [if_neg hba] at h1
        by_cases hbc : b.toNat < c.toNat
        · rw [if_pos (by omega)]
        · rw [if_neg hbc] at h2
          by_cases hcb : c.toNat < b.toNat
          · rw [if_pos hcb] at h2; cases h2
          · rw [if_neg hcb] at h2
            rw [if_neg (by omega), if_neg (by omega)]
            exact charListLt_trans as bs cs h1 h2

theorem char_toNat_inj {a b : Char} (h : a.toNat = b.toNat) : a = b := by
  have hv : a.val = b.val := by
    have h1 : a.val.toNat = b.val.toNat := h
    exact UInt32.ext h1
  exact Char.ext hv

theorem charListLt_eq_of_not : ∀ (x y : List Char),
    charListLt x y = false → charListLt y x = false → x = y
  | [], [], _, _ => rfl
  | [], _ :: _, h1, _ => by cases h1
  | _ :: _, [], _, h2 => by cases h2
  | a :: as, b :: bs, h1, h2 => by
    rw [charListLt] at h1 h2
    by_cases hab : a.toNat < b.toNat
    · rw [if_pos hab] at h1; cases h1
    · by_cases hba : b.toNat < a.toNat
      · rw [if_pos hba] at h2; cases h2
      · rw [if_neg hab, if_neg hba] at h1
        rw [if_neg hba, if_neg hab] at h2
        have hfst : a = b := char_toNat_inj (by omega)
        have hrest : as = bs := charListLt_eq_of_not as bs h1 h2
        rw [hfst, hrest]

/-- Strict lexicographic order on keys, as a Boolean: Python
`(t1, v1) < (t2, v2)`. -/
def keyLtB (p q : Int × String) : Bool :=
  p.1 < q.1 || (p.1 == q.1 && strLtB p.2 q.2)

/-- Descending comparator handed to the stable sort: `a` may precede `b`
iff `key a` is not strictly below `key b`.  A stable sort with this
comparator is exactly Python's stable `list.sort(key=..., reverse=True)`. -/
def descLe (a b : FeedItem) : Bool := !keyLtB (itemKey a) (itemKey b)

theorem keyLtB_iff (p q : Int × String) :
    keyLtB p q = true ↔
      p.1 < q.1 ∨ (p.1 = q.1 ∧ strLtB p.2 q.2 = true) := by
  simp [keyLtB]

theorem keyLtB_irrefl (p : Int × String) : keyLtB p p = false := by
  simp [keyLtB, strLtB, charListLt_irrefl]

theorem keyLtB_trans {p q r : Int × String} (h1 : keyLtB p q = true)
    (h2 : keyLtB q r = true) : keyLtB p r = true := by
  rw [keyLtB_iff] at h1 h2 ⊢
  rcases h1 with h1 | ⟨h1e, h1s⟩ <;> rcases h2 with h2 | ⟨h2e, h2s⟩
  · exact Or.inl (lt_trans h1 h2)
  · exact Or.inl (h2e ▸ h1)
  · exact Or.inl (h1e ▸ h2)
  · exact Or.inr ⟨h1e.trans h2e, charListLt_trans _ _ _ h1s h2s⟩

theorem keyLtB_total (p q : Int × String) :
    keyLtB p q = true ∨ keyLtB q p = true ∨ p = q := by
  rw [keyLtB_iff, keyLtB_iff]
  rcases lt_trichotomy p.1 q.1 with h | h | h
  · exact Or.inl (Or.inl h)
  · cases hpq : strLtB p.2 q.2 with
    | true => exact Or.inl (Or.inr ⟨h, rfl⟩)
    | false =>
      cases hqp : strLtB q.2 p.2 with
      | true => exact Or.inr (Or.inl (Or.inr ⟨h.symm, rfl⟩))
      | false =>
        refine Or.inr (Or.inr (Prod.ext h ?_))
        have := charListLt_eq_of_not p.2.data q.2.data hpq hqp
        exact congrArg String.mk this
  · exact Or.inr (Or.inl (Or.inl h))

theorem descLe_trans (a b c : FeedItem) (h1 : descLe a b = true)
    (h2 : descLe b c = true) : descLe a c = true := by
  simp only [descLe, Bool.not_eq_true'] at h1 h2 ⊢
  by_contra hcon
  rw [Bool.not_eq_false] at hcon
  rcases keyLtB_total (itemKey a) (itemKey b) with hb | hb | hb
  · rw [h1] at hb; exact Bool.noConfusion hb
  · have hbc := keyLtB_trans hb hcon
    rw [h2] at hbc; exact Bool.noConfusion hbc
  · rw [hb] at hcon; rw [h2] at hcon; exact Bool.noConfusion hcon

theorem descLe_total (a b : FeedItem) : (descLe a b || descLe b a) = true := by
  simp only [descLe, Bool.not_eq_true']
  rcases keyLtB_total (itemKey a) (itemKey b) with h | h | h
  · have : keyLtB (itemKey b) (itemKey a) = false := by
      by_contra hc
      rw [Bool.not_eq_false] at hc
      have := keyLtB_trans h hc
      rw [keyLtB_irrefl] at this
      cases this
    simp [this]
  · have : keyLtB (itemKey a) (itemKey b) = false := by
      by_contra hc
      rw [Bool.not_eq_false] at hc
      have := keyLtB_trans hc h
      rw [keyLtB_irrefl] at this
      cases this
    simp [this]
  · rw [h, keyLtB_irrefl]; simp

/-- Stable insertion into a descending-sorted list: the new element goes
after every element whose key is not strictly below its own — exactly
where Python's stable sort keeps an element arriving later in the
input. -/
def insertDesc (x : FeedItem) : List FeedItem → List FeedItem
  | [] => [x]
  | y :: ys => if descLe y x then y :: insertDesc x ys else x :: y :: ys

/-- Stable sort with the descending comparator, processing the input left
to right.  For a total preorder the stable sorted permutation is unique,
so this is extensionally Python's stable `list.sort(key=..., reverse=True)`
(CPython's Timsort is stable). -/
def sortDesc (l : List FeedItem) : List FeedItem :=
  l.foldl (fun acc x => insertDesc x acc) []

theorem mem_insertDesc (a x : FeedItem) (l : List FeedItem) :
    a ∈ insertDesc x l ↔ a = x ∨ a ∈ l := by
  induction l with
  | nil => simp [insertDesc]
  | cons y ys ih =>
    rw [insertDesc]
    split_ifs with h
    · rw [List.mem_cons, ih, List.mem_cons]
      tauto
    · simp only [List.mem_cons]

theorem descLe_of_not (a b : FeedItem) (h : ¬descLe a b = true) :
    descLe b a = true := by
  have htot := descLe_total a b
  rw [Bool.or_eq_true] at htot
  rcases htot with h1 | h1
  · exact absurd h1 h
  · exact h1

theorem insertDesc_perm (x : FeedItem) (l : List FeedItem) :
    (insertDesc x l).Perm (x :: l) := by
  induction l with
  | nil => exact List.Perm.refl _
  | cons y ys ih =>
    rw [insertDesc]
    split_ifs with h
    · exact (ih.cons y).trans (List.Perm.swap x y ys)
    · exact List.Perm.refl _

theorem insertDesc_pairwise (x : FeedItem) (l : List FeedItem)
    (hl : l.Pairwise (fun a b => descLe a b = true)) :
    (insertDesc x l).Pairwise (fun a b => descLe a b = true) := by
  induction l with
  | nil => simp [insertDesc]
  | cons y ys ih =>
    obtain ⟨hy, hys⟩ := List.pairwise_cons.mp hl
    rw [insertDesc]
    split_ifs with h
    · rw [List.pairwise_cons]
      refine ⟨?_, ih hys⟩
      intro b hb
      rcases (mem_insertDesc b x ys).mp hb with hbx | hbm
      · rw [hbx]; exact h
      · exact hy b hbm
    · rw [List.pairwise_cons]
      refine ⟨?_, hl⟩
      intro b hb
      rcases List.mem_cons.mp hb with hby | hbm
      · rw [hby]
        exact descLe_of_not y x h
      · exact descLe_trans x y b (descLe_of_not y x h) (hy b hbm)

theorem sortDesc_perm_aux (l acc : List FeedItem) :
    (l.foldl (fun a x => insertDesc x a) acc).Perm (acc ++ l) := by
  induction l generalizing acc with
  | nil => simp
  | cons x xs ih =>
    rw [List.foldl_cons]
    refine (ih (insertDesc x acc)).trans ?_
    have h1 : (insertDesc x acc ++ xs).Perm ((x :: acc) ++ xs) :=
      (insertDesc_perm x acc).append_right xs
    refine h1.trans ?_
    rw [List.cons_append]
    exact List.perm_middle.symm

theorem sortDesc_perm (l : List FeedItem) : (sortDesc l).Perm l := by
  have := sortDesc_perm_aux l []
  rw [List.nil_append] at this
  exact this

theorem sortDesc_pairwise_aux (l acc : List FeedItem)
    (hacc : acc.Pairwise (fun a b => descLe a b = true)) :
    (l.foldl (fun a x => insertDesc x a) acc).Pairwise
      (fun a b => descLe a b = true) := by
  induction l generalizing acc with
  | nil => exact hacc
  | cons x xs ih =>
    rw [List.foldl_cons]
    exact ih (insertDesc x acc) (insertDesc_pairwise x acc hacc)

theorem sortDesc_pairwise (l : List FeedItem) :
    (sortDesc l).Pairwise (fun a b => descLe a b = true) :=
  sortDesc_pairwise_aux l [] (List.Pairwise.nil)

/-! ## `is_short`: `aggregator.py` lines 10–20 -/

/-- Substring test on lists of characters: does `pat` occur contiguously? -/
def containsSub (pat : List Char) : List Char → Bool
  | [] => pat == []
  | c :: rest => List.isPrefixOf pat (c :: rest) || containsSub pat rest

/-- Substring test on strings (Python `sub in s`). -/
def strContains (s pat : String) : Bool := containsSub pat.data s.data

/-- Character-wise lowercase (Python `str.lower`, faithful on the ASCII
range, which is all the pattern test needs). -/
def strLower (s : String) : String := String.mk (s.data.map Char.toLower)

/-- Classification of an item as a YouTube Short (`aggregator.py` lines
10–20): the lowercased URL contains `"/shorts/"`. -/
def is_short (item : FeedItem) : Bool :=
  strContains (strLower item.link) "/shorts/"

/-! ## Base64 (CPython `base64` module, as used by the repository)

`make_cursor` uses `base64.urlsafe_b64encode`, `decode_cursor` uses
`base64.urlsafe_b64decode`, and `get_feed` uses
`base64.b64decode(cursor, validate=True)`.  Bytes are modelled as `Nat`
values below 256. -/

/-- Character of the standard base64 alphabet for a sextet value. -/
def b64StdChar (n : Nat) : Char :=
  if n < 26 then Char.ofNat (65 + n)
  else if n < 52 then Char.ofNat (97 + (n - 26))
  else if n < 62 then Char.ofNat (48 + (n - 52))
  else if n = 62 then Char.ofNat 43
  else Char.ofNat 47

/-- Character of the urlsafe base64 alphabet (`-` and `_` for 62/63). -/
def b64UrlChar (n : Nat) : Char :=
  if n = 62 then Char.ofNat 45
  else if n = 63 then Char.ofNat 95
  else b64StdChar n

/-- Sextet value of a character of the standard alphabet
(`base64.b64decode` with the default alphabet). -/
def b64StdVal (c : Char) : Option Nat :=
  let n := c.toNat
  if 65 ≤ n && n ≤ 90 then some (n - 65)
  else if 97 ≤ n && n ≤ 122 then some (n - 97 + 26)
  else if 48 ≤ n && n ≤ 57 then some (n - 48 + 52)
  else if n == 43 then some 62
  else if n == 47 then some 63
  else none

/-- Sextet value for `base64.urlsafe_b64decode`: the translation `-` to `+`
and `_` to `/` is applied first, so both alphabets are accepted. -/
def b64UrlVal (c : Char) : Option Nat :=
  if c.toNat == 45 then some 62
  else if c.toNat == 95 then some 63
  else b64StdVal c

/-- Base64 encoding of a byte list into characters, three bytes to four
characters, padding the final group with `=`. -/
def b64EncodeChunks (chr : Nat → Char) : List Nat → List Char
  | [] => []
  | [b1] =>
      [chr (b1 / 4), chr (b1 % 4 * 16), Char.ofNat 61, Char.ofNat 61]
  | [b1, b2] =>
      [chr (b1 / 4), chr (b1 % 4 * 16 + b2 / 16), chr (b2 % 16 * 4),
        Char.ofNat 61]
  | b1 :: b2 :: b3 :: rest =>
      chr (b1 / 4) :: chr (b1 % 4 * 16 + b2 / 16) ::
        chr (b2 % 16 * 4 + b3 / 64) :: chr (b3 % 64) ::
        b64EncodeChunks chr rest

/-- Python `base64.urlsafe_b64encode(bs).decode()`. -/
def urlsafe_b64encode (bs : List Nat) : String :=
  String.mk (b64EncodeChunks b64UrlChar bs)

/-- Base64 decoding of a character list, four characters to three bytes,
honouring `=` padding in the final group.  This agrees with CPython
`base64.b64decode` on every properly padded input over the given alphabet;
CPython laxities on malformed input (discarding junk characters when
`validate=False`) are not modelled — no claim depends on them, decoding
simply fails here. -/
def b64DecodeChars (val : Char → Option Nat) : List Char → Option (List Nat)
  | [] => some []
  | [a, b, pc, pd] =>
    if pc == Char.ofNat 61 && pd == Char.ofNat 61 then
      match val a, val b with
      | some va, some vb => some [va * 4 + vb / 16]
      | _, _ => none
    else if pd == Char.ofNat 61 then
      match val a, val b, val pc with
      | some va, some vb, some vc =>
          some [va * 4 + vb / 16, vb % 16 * 16 + vc / 4]
      | _, _, _ => none
    else
      match val a, val b, val pc, val pd with
      | some va, some vb, some vc, some vd =>
          some [va * 4 + vb / 16, vb % 16 * 16 + vc / 4, vc % 4 * 64 + vd]
      | _, _, _, _ => none
  | a :: b :: c :: d :: rest =>
    match val a, val b, val c, val d, b64DecodeChars val rest with
    | some va, some vb, some vc, some vd, some t =>
        some ((va * 4 + vb / 16) :: (vb % 16 * 16 + vc / 4) ::
          (vc % 4 * 64 + vd) :: t)
    | _, _, _, _, _ => none
  | _ => none

/-- Python `base64.urlsafe_b64decode(s)`. -/
def urlsafe_b64decode (s : String) : Option (List Nat) :=
  b64DecodeChars b64UrlVal s.data

/-- Python `base64.b64decode(s, validate=True)`: standard alphabet only, any
character outside it (including `-` and `_`) is an error. -/
def b64decode_validate (s : String) : Option (List Nat) :=
  b64DecodeChars b64StdVal s.data

theorem b64EncodeChunks_cons (chr : Nat → Char) (x : Nat) (xs : List Nat) :
    ∃ y ys, b64EncodeChunks chr (x :: xs) = y :: ys := by
  cases xs with
  | nil => exact ⟨_, _, rfl⟩
  | cons b l =>
    cases l with
    | nil => exact ⟨_, _, rfl⟩
    | cons c m => exact ⟨_, _, rfl⟩

theorem b64DecodeChars_cons5 {val : Char → Option Nat} {t1 t2 t3 t4 y : Char}
    {ys : List Char} : b64DecodeChars val (t1 :: t2 :: t3 :: t4 :: y :: ys) =
      match val t1, val t2, val t3, val t4, b64DecodeChars val (y :: ys) with
      | some va, some vb, some vc, some vd, some t =>
          some ((va * 4 + vb / 16) :: (vb % 16 * 16 + vc / 4) ::
            (vc % 4 * 64 + vd) :: t)
      | _, _, _, _, _ => none := rfl

theorem b64UrlVal_b64UrlChar : ∀ n, n < 64 → b64UrlVal (b64UrlChar n) = some n := by
  decide

theorem b64UrlChar_ne_pad : ∀ n, n < 64 → (b64UrlChar n == Char.ofNat 61) = false := by
  decide

/-- Round trip of base64 over the urlsafe alphabet, for genuine bytes. -/
theorem b64_roundtrip : ∀ (bs : List Nat), (∀ b ∈ bs, b < 256) →
    b64DecodeChars b64UrlVal (b64EncodeChunks b64UrlChar bs) = some bs
  | [], _ => rfl
  | [b1], h => by
    have hb1 : b1 < 256 := h b1 (by simp)
    have h1 : b1 / 4 < 64 := by omega
    have h2 : b1 % 4 * 16 < 64 := by omega
    simp only [b64EncodeChunks, b64DecodeChars,
      b64UrlVal_b64UrlChar _ h1, b64UrlVal_b64UrlChar _ h2, beq_self_eq_true,
      Bool.and_self, if_true, Option.some.injEq, List.cons.injEq, and_true]
    omega
  | [b1, b2], h => by
    have hb1 : b1 < 256 := h b1 (by simp)
    have hb2 : b2 < 256 := h b2 (by simp)
    have h1 : b1 / 4 < 64 := by omega
    have h2 : b1 % 4 * 16 + b2 / 16 < 64 := by omega
    have h3 : b2 % 16 * 4 < 64 := by omega
    simp only [b64EncodeChunks, b64DecodeChars, b64UrlChar_ne_pad _ h3,
      b64UrlVal_b64UrlChar _ h1, b64UrlVal_b64UrlChar _ h2,
      b64UrlVal_b64UrlChar _ h3, beq_self_eq_true, Bool.false_and,
      Bool.and_true, if_false, Bool.false_eq_true, ite_false, ite_true,
      Option.some.injEq, List.cons.injEq, and_true]
    omega
  | b1 :: b2 :: b3 :: rest, h => by
    have hb1 : b1 < 256 := h b1 (by simp)
    have hb2 : b2 < 256 := h b2 (by simp)
    have hb3 : b3 < 256 := h b3 (by simp)
    have hrest : ∀ b ∈ rest, b < 256 := fun b hb => h b (by simp [hb])
    have h1 : b1 / 4 < 64 := by omega
    have h2 : b1 % 4 * 16 + b2 / 16 < 64 := by omega
    have h3 : b2 % 16 * 4 + b3 / 64 < 64 := by omega
    have h4 : b3 % 64 < 64 := by omega
    have ih2 := b64_roundtrip rest hrest
    cases rest with
    | nil =>
      simp only [b64EncodeChunks, b64DecodeChars, b64UrlChar_ne_pad _ h4,
        b64UrlVal_b64UrlChar _ h1, b64UrlVal_b64UrlChar _ h2,
        b64UrlVal_b64UrlChar _ h3, b64UrlVal_b64UrlChar _ h4,
        Bool.and_false, Bool.false_eq_true, ite_false,
        Option.some.injEq, List.cons.injEq, and_true]
      omega
    | cons x xs =>
      obtain ⟨y, ys, hey⟩ := b64EncodeChunks_cons b64UrlChar x xs
      rw [show b64EncodeChunks b64UrlChar (b1 :: b2 :: b3 :: x :: xs) =
          b64UrlChar (b1 / 4) :: b64UrlChar (b1 % 4 * 16 + b2 / 16) ::
          b64UrlChar (b2 % 16 * 4 + b3 / 64) :: b64UrlChar (b3 % 64) ::
          b64EncodeChunks b64UrlChar (x :: xs) from rfl, hey]
      rw [hey] at ih2
      rw [b64DecodeChars_cons5, b64UrlVal_b64UrlChar _ h1,
        b64UrlVal_b64UrlChar _ h2, b64UrlVal_b64UrlChar _ h3,
        b64UrlVal_b64UrlChar _ h4, ih2]
      simp only [Option.some.injEq, List.cons.injEq]
      exact ⟨by omega, by omega, by omega, trivial⟩

/-! ## Decimal integers

`json.dumps` writes a Python `int` in ordinary decimal notation (`str(t)`);
`json.loads` reads an integer token back. -/

/-- Decimal digit characters, most significant first.  The fuel only
drives the recursion (each step divides by ten); the wrapper passes enough
for any value. -/
def natDigitsF : Nat → Nat → List Char
  | 0, n => [Char.ofNat (48 + n % 10)]
  | f + 1, n =>
    if n < 10 then [Char.ofNat (48 + n)]
    else natDigitsF f (n / 10) ++ [Char.ofNat (48 + n % 10)]

/-- Decimal digit characters of a natural number, most significant first —
the digits of Python `str(n)`. -/
def natDigits (n : Nat) : List Char := natDigitsF (n + 1) n

theorem natDigitsF_irrel : ∀ (n f1 f2 : Nat), n < f1 → n < f2 →
    natDigitsF f1 n = natDigitsF f2 n := by
  intro n
  induction n using Nat.strong_induction_on with
  | _ n ih =>
    intro f1 f2 h1 h2
    cases f1 with
    | zero => omega
    | succ g1 =>
      cases f2 with
      | zero => omega
      | succ g2 =>
        show (if n < 10 then [Char.ofNat (48 + n)]
          else natDigitsF g1 (n / 10) ++ [Char.ofNat (48 + n % 10)]) =
          (if n < 10 then [Char.ofNat (48 + n)]
          else natDigitsF g2 (n / 10) ++ [Char.ofNat (48 + n % 10)])
        by_cases h : n < 10
        · rw [if_pos h, if_pos h]
        · rw [if_neg h, if_neg h]
          congr 1
          exact ih (n / 10) (Nat.div_lt_self (by omega) (by omega))
            g1 g2 (by omega) (by omega)

/-- The recursion equation of `natDigits` with the fuel hidden. -/
theorem natDigits_unfold (n : Nat) :
    natDigits n = if n < 10 then [Char.ofNat (48 + n)]
      else natDigits (n / 10) ++ [Char.ofNat (48 + n % 10)] := by
  show (if n < 10 then [Char.ofNat (48 + n)]
    else natDigitsF n (n / 10) ++ [Char.ofNat (48 + n % 10)]) = _
  by_cases h : n < 10
  · rw [if_pos h, if_pos h]
  · rw [if_neg h, if_neg h]
    congr 1
    exact natDigitsF_irrel (n / 10) n (n / 10 + 1)
      (Nat.div_lt_self (by omega) (by omega)) (by omega)

/-- Characters of Python `str(i)` for an `int`. -/
def pyIntRepr (i : Int) : List Char :=
  if i < 0 then Char.ofNat 45 :: natDigits i.natAbs else natDigits i.toNat

def isDigitChar (c : Char) : Bool := 48 ≤ c.toNat && c.toNat ≤ 57

/-- Numeric value of a list of decimal digit characters. -/
def digitsVal (ds : List Char) : Nat :=
  ds.foldl (fun acc c => acc * 10 + (c.toNat - 48)) 0

/-- Integer token of the JSON grammar at the head of the input: an optional
minus sign followed by a maximal run of digits.  (The JSON prohibition of
leading zeros is not modelled; `pyIntRepr` never emits them.) -/
def parseJsonInt (l : List Char) : Option (Int × List Char) :=
  match l with
  | [] => none
  | c :: rest =>
    if c = Char.ofNat 45 then
      match rest.takeWhile isDigitChar with
      | [] => none
      | ds => some (-(digitsVal ds : Int), rest.dropWhile isDigitChar)
    else
      match l.takeWhile isDigitChar with
      | [] => none
      | ds => some ((digitsVal ds : Int), l.dropWhile isDigitChar)

theorem digitChar_toNat (m : Nat) (h : m < 10) :
    (Char.ofNat (48 + m)).toNat = 48 + m := by
  interval_cases m <;> decide

theorem digitChar_isDigit (m : Nat) (h : m < 10) :
    isDigitChar (Char.ofNat (48 + m)) = true := by
  interval_cases m <;> decide

theorem natDigits_digits (n : Nat) : ∀ c ∈ natDigits n, isDigitChar c = true := by
  induction n using Nat.strong_induction_on with
  | _ n ih =>
    intro c hc
    rw [natDigits_unfold] at hc
    split_ifs at hc with h
    · simp only [List.mem_singleton] at hc
      subst hc
      exact digitChar_isDigit n h
    · rw [List.mem_append] at hc
      rcases hc with hc | hc
      · exact ih (n / 10) (Nat.div_lt_self (by omega) (by omega)) c hc
      · simp only [List.mem_singleton] at hc
        subst hc
        exact digitChar_isDigit (n % 10) (by omega)

theorem natDigits_ne_nil (n : Nat) : natDigits n ≠ [] := by
  rw [natDigits_unfold]
  by_cases h : n < 10
  · rw [if_pos h]; simp
  · rw [if_neg h]; simp

theorem digitsVal_natDigits (n : Nat) : digitsVal (natDigits n) = n := by
  induction n using Nat.strong_induction_on with
  | _ n ih =>
    rw [natDigits_unfold]
    split_ifs with h
    · show 0 * 10 + ((Char.ofNat (48 + n)).toNat - 48) = n
      rw [digitChar_toNat n h]
      omega
    · show List.foldl (fun acc c => acc * 10 + (c.toNat - 48)) 0
        (natDigits (n / 10) ++ [Char.ofNat (48 + n % 10)]) = n
      rw [List.foldl_append]
      have ihv : List.foldl (fun acc c => acc * 10 + (c.toNat - 48)) 0
          (natDigits (n / 10)) = n / 10 :=
        ih (n / 10) (Nat.div_lt_self (by omega) (by omega))
      rw [ihv, List.foldl_cons, List.foldl_nil,
        digitChar_toNat (n % 10) (by omega)]
      omega

/-- Splitting a run of satisfied characters off `takeWhile`/`dropWhile`. -/
theorem takeWhile_exact {p : Char → Bool} (ds rest : List Char)
    (hds : ∀ c ∈ ds, p c = true)
    (hrest : ∀ r rs, rest = r :: rs → p r = false) :
    (ds ++ rest).takeWhile p = ds ∧ (ds ++ rest).dropWhile p = rest := by
  induction ds with
  | nil =>
    simp only [List.nil_append]
    cases rest with
    | nil => exact ⟨rfl, rfl⟩
    | cons r rs =>
      rw [List.takeWhile_cons, List.dropWhile_cons, hrest r rs rfl]
      exact ⟨rfl, rfl⟩
  | cons d ds ih =>
    have hd : p d = true := hds d (by simp)
    have ih2 := ih (fun c hc => hds c (by simp [hc]))
    simp only [List.cons_append, List.takeWhile_cons, List.dropWhile_cons, hd,
      if_true, ite_true]
    exact ⟨by rw [ih2.1], by rw [ih2.2]⟩

/-- Round trip of the decimal codec: parsing `str(t)` followed by anything
that does not extend the token recovers `t` exactly. -/
theorem parseJsonInt_pyIntRepr (t : Int) (rest : List Char)
    (hrest : ∀ r rs, rest = r :: rs → isDigitChar r = false) :
    parseJsonInt (pyIntRepr t ++ rest) = some (t, rest) := by
  by_cases hneg : t < 0
  · rw [pyIntRepr, if_pos hneg]
    obtain ⟨hta, hdr⟩ := takeWhile_exact (natDigits t.natAbs) rest
      (natDigits_digits t.natAbs) hrest
    rw [List.cons_append, parseJsonInt, if_pos rfl, hta, hdr]
    cases hnd : natDigits t.natAbs with
    | nil => exact absurd hnd (natDigits_ne_nil _)
    | cons d ds =>
      show some (-(digitsVal (d :: ds) : Int), rest) = some (t, rest)
      rw [← hnd, digitsVal_natDigits]
      have hv : -((t.natAbs : Nat) : Int) = t := by omega
      rw [hv]
  · rw [pyIntRepr, if_neg hneg]
    obtain ⟨hta, hdr⟩ := takeWhile_exact (natDigits t.toNat) rest
      (natDigits_digits t.toNat) hrest
    cases hnd : natDigits t.toNat with
    | nil => exact absurd hnd (natDigits_ne_nil _)
    | cons d ds =>
      have hd : isDigitChar d = true :=
        natDigits_digits t.toNat d (by rw [hnd]; simp)
      have hdne : ¬(d = Char.ofNat 45) := by
        intro he
        have h45 : d.toNat = 45 := by rw [he]; decide
        simp only [isDigitChar, h45] at hd
        cases hd
      rw [hnd] at hta hdr
      rw [List.cons_append, parseJsonInt, if_neg hdne,
        ← List.cons_append, hta, hdr]
      show some ((digitsVal (d :: ds) : Int), rest) = some (t, rest)
      rw [← hnd, digitsVal_natDigits]
      have hv : ((t.toNat : Nat) : Int) = t := by omega
      rw [hv]

/-! ## JSON (CPython `json` module, as used by the cursor codec)

`make_cursor` runs `json.dumps({"t": ..., "v": ...})` with default options
(`ensure_ascii=True`, separators `", "` and `": "`); `decode_cursor` runs
`json.loads`.  The model covers JSON documents that are integers, strings,
or one-level objects of those — exactly the shape the codec produces.
Richer documents (arrays, floats, nesting) make our parser fail where
CPython would succeed; no claim exercises them. -/

/-- Lowercase hexadecimal digit character, as CPython emits in `\uXXXX`. -/
def hexChar (n : Nat) : Char :=
  if n < 10 then Char.ofNat (48 + n) else Char.ofNat (87 + n)

/-- The six characters of a `\uXXXX` escape of a code unit below 0x10000. -/
def uEscape (n : Nat) : List Char :=
  [Char.ofNat 92, Char.ofNat 117, hexChar (n / 4096 % 16),
    hexChar (n / 256 % 16), hexChar (n / 16 % 16), hexChar (n % 16)]

/-- The `json.dumps` (`ensure_ascii=True`) escape of one character: special
two-character escapes for quote, backslash, backspace, tab, newline,
form-feed and carriage-return; `\uXXXX` for other control and all
non-ASCII characters, astral characters as a surrogate pair. -/
def escChar (c : Char) : List Char :=
  let n := c.toNat
  if n == 34 then [Char.ofNat 92, Char.ofNat 34]
  else if n == 92 then [Char.ofNat 92, Char.ofNat 92]
  else if n == 8 then [Char.ofNat 92, Char.ofNat 98]
  else if n == 9 then [Char.ofNat 92, Char.ofNat 116]
  else if n == 10 then [Char.ofNat 92, Char.ofNat 110]
  else if n == 12 then [Char.ofNat 92, Char.ofNat 102]
  else if n == 13 then [Char.ofNat 92, Char.ofNat 114]
  else if n < 32 then uEscape n
  else if n < 127 then [c]
  else if n < 65536 then uEscape n
  else uEscape (55296 + (n - 65536) / 1024) ++ uEscape (56320 + (n - 65536) % 1024)

/-- Characters of the `json.dumps` serialization of a string, quotes
included. -/
def escString (s : String) : List Char :=
  Char.ofNat 34 :: (s.data.flatMap escChar ++ [Char.ofNat 34])

/-- Value of one hexadecimal digit character (either case). -/
def hexVal (c : Char) : Option Nat :=
  let n := c.toNat
  if 48 ≤ n && n ≤ 57 then some (n - 48)
  else if 97 ≤ n && n ≤ 102 then some (n - 87)
  else if 65 ≤ n && n ≤ 70 then some (n - 55)
  else none

/-- Value of the four hex digits of a `\uXXXX` escape. -/
def hex4Val (h1 h2 h3 h4 : Char) : Option Nat :=
  match hexVal h1, hexVal h2, hexVal h3, hexVal h4 with
  | some a, some b, some c, some d => some (a * 4096 + b * 256 + c * 16 + d)
  | _, _, _, _ => none

/-- JSON string body scanner (the part after the opening quote): returns the
decoded characters and the input after the closing quote.  Escape handling
follows CPython `json.decoder.scanstring`: the named escapes plus `\uXXXX`,
with a high/low surrogate pair combined into one character.  A lone
surrogate is a failure here (CPython keeps it; such a string is not
representable as Lean characters and is outside every claim).  The `fuel`
argument only drives the recursion; every step consumes one fuel and at
least one input character, so the wrapper below, which passes
`length + 1`, never exhausts it. -/
def psbF : Nat → List Char → Option (List Char × List Char)
  | _, [] => none
  | 0, _ :: _ => none
  | f + 1, c :: rest =>
    if c.toNat == 34 then some ([], rest)
    else if c.toNat == 92 then
      match rest with
      | [] => none
      | e :: r =>
        if e.toNat == 34 then
          (psbF f r).map (fun p => (Char.ofNat 34 :: p.1, p.2))
        else if e.toNat == 92 then
          (psbF f r).map (fun p => (Char.ofNat 92 :: p.1, p.2))
        else if e.toNat == 47 then
          (psbF f r).map (fun p => (Char.ofNat 47 :: p.1, p.2))
        else if e.toNat == 98 then
          (psbF f r).map (fun p => (Char.ofNat 8 :: p.1, p.2))
        else if e.toNat == 116 then
          (psbF f r).map (fun p => (Char.ofNat 9 :: p.1, p.2))
        else if e.toNat == 110 then
          (psbF f r).map (fun p => (Char.ofNat 10 :: p.1, p.2))
        else if e.toNat == 102 then
          (psbF f r).map (fun p => (Char.ofNat 12 :: p.1, p.2))
        else if e.toNat == 114 then
          (psbF f r).map (fun p => (Char.ofNat 13 :: p.1, p.2))
        else if e.toNat == 117 then
          match r with
          | h1 :: h2 :: h3 :: h4 :: r2 =>
            match hex4Val h1 h2 h3 h4 with
            | none => none
            | some n =>
              if 55296 ≤ n ∧ n < 56320 then
                match r2 with
                | s1 :: s2 :: g1 :: g2 :: g3 :: g4 :: r3 =>
                  if s1.toNat == 92 && s2.toNat == 117 then
                    match hex4Val g1 g2 g3 g4 with
                    | some m =>
                      if 56320 ≤ m ∧ m < 57344 then
                        (psbF f r3).map (fun p =>
                          (Char.ofNat (65536 + (n - 55296) * 1024 + (m - 56320))
                            :: p.1, p.2))
                      else none
                    | none => none
                  else none
                | _ => none
              else if 56320 ≤ n ∧ n < 57344 then none
              else (psbF f r2).map (fun p => (Char.ofNat n :: p.1, p.2))
          | _ => none
        else none
    else (psbF f rest).map (fun p => (c :: p.1, p.2))

/-- JSON string body scanner with the fuel discharged. -/
def parseStringBody (l : List Char) : Option (List Char × List Char) :=
  psbF (l.length + 1) l

/-- A JSON scalar of the fragment the cursor codec uses. -/
inductive JVal where
  | jint (i : Int)
  | jstr (s : String)
deriving DecidableEq, Repr

/-- A parsed JSON document of the fragment the cursor codec uses: a scalar,
or a one-level object with scalar values. -/
inductive JDoc where
  | scalar (v : JVal)
  | obj (members : List (String × JVal))
deriving DecidableEq, Repr

def isJsonWs (c : Char) : Bool :=
  c.toNat == 32 || c.toNat == 9 || c.toNat == 10 || c.toNat == 13

def skipWs (l : List Char) : List Char := l.dropWhile isJsonWs

/-- A scalar JSON value at the head of the input: a string or an integer. -/
def parseScalar (l : List Char) : Option (JVal × List Char) :=
  match l with
  | [] => none
  | c :: rest =>
    if c.toNat == 34 then
      (parseStringBody rest).map (fun p => (JVal.jstr (String.mk p.1), p.2))
    else
      (parseJsonInt l).map (fun p => (JVal.jint p.1, p.2))

/-- One member of a JSON object: a key string, `:` (with surrounding
whitespace) and a scalar value. -/
def parseMember (l : List Char) : Option ((String × JVal) × List Char) :=
  match l with
  | [] => none
  | c :: rest =>
    if c.toNat == 34 then
      match parseStringBody rest with
      | none => none
      | some (kcs, r1) =>
        match skipWs r1 with
        | [] => none
        | c2 :: r2 =>
          if c2.toNat == 58 then
            (parseScalar (skipWs r2)).map (fun p => ((String.mk kcs, p.1), p.2))
          else none
    else none

/-- Members of a JSON object, positioned just after `{` (whitespace already
skipped) at a key string; consumes up to and including the closing brace. -/
def parseMembers (fuel : Nat) (l : List Char) :
    Option (List (String × JVal) × List Char) :=
  match fuel with
  | 0 => none
  | fuel + 1 =>
    match parseMember l with
    | none => none
    | some (kv, r3) =>
      match skipWs r3 with
      | [] => none
      | c3 :: r4 =>
        if c3.toNat == 44 then
          match parseMembers fuel (skipWs r4) with
          | some (ms, r5) => some (kv :: ms, r5)
          | none => none
        else if c3.toNat == 125 then
          some ([kv], r4)
        else none

/-- Python `json.loads` on the modelled fragment: optional surrounding
whitespace, then a scalar or a one-level object; trailing input is an
error. -/
def json_loads (s : String) : Option JDoc :=
  match skipWs s.data with
  | [] => none
  | c :: rest =>
    if c.toNat == 123 then
      match skipWs rest with
      | [] => none
      | c2 :: r2 =>
        if c2.toNat == 125 then
          if skipWs r2 = ([] : List Char) then some (JDoc.obj []) else none
        else
          match parseMembers (rest.length + 1) (skipWs rest) with
          | some (ms, r) =>
              if skipWs r = ([] : List Char) then some (JDoc.obj ms) else none
          | none => none
    else
      match parseScalar (c :: rest) with
      | some (v, r) =>
          if skipWs r = ([] : List Char) then some (JDoc.scalar v) else none
      | none => none

/-- Lookup in the dict built by `json.loads`: a later duplicate key
overrides an earlier one, so the last binding wins. -/
def jsonLookup (ms : List (String × JVal)) (k : String) : Option JVal :=
  match ms with
  | [] => none
  | (k2, v) :: rest =>
    match jsonLookup rest k with
    | some r => some r
    | none => if k2 == k then some v else none

/-! ## Round trip of the JSON string escape -/

theorem hexVal_hexChar : ∀ n, n < 16 → hexVal (hexChar n) = some n := by
  decide

theorem hex4Val_uEscape (n : Nat) (h : n < 65536) :
    hex4Val (hexChar (n / 4096 % 16)) (hexChar (n / 256 % 16))
      (hexChar (n / 16 % 16)) (hexChar (n % 16)) = some n := by
  rw [hex4Val, hexVal_hexChar _ (Nat.mod_lt _ (by omega)),
    hexVal_hexChar _ (Nat.mod_lt _ (by omega)),
    hexVal_hexChar _ (Nat.mod_lt _ (by omega)),
    hexVal_hexChar _ (Nat.mod_lt _ (by omega))]
  show some (n / 4096 % 16 * 4096 + n / 256 % 16 * 256 + n / 16 % 16 * 16
    + n % 16) = some n
  congr 1
  omega

/-- Valid scalar values of Lean characters: below the surrogate range or in
the post-surrogate plane range. -/
theorem char_toNat_valid (c : Char) :
    c.toNat < 55296 ∨ (57344 ≤ c.toNat ∧ c.toNat < 1114112) := by
  have h := c.valid
  unfold UInt32.isValidChar Nat.isValidChar at h
  rcases h with h | ⟨h1, h2⟩
  · exact Or.inl h
  · exact Or.inr ⟨h1, h2⟩

/-- One-step unfolding of the scanner on a character of input.  This holds
by definitional unfolding; it exists because rewriting wants the equation
spelled out. -/
theorem psbF_cons (f : Nat) (c : Char) (rest : List Char) :
    psbF (f + 1) (c :: rest) =
    (if c.toNat == 34 then some ([], rest)
    else if c.toNat == 92 then
      match rest with
      | [] => none
      | e :: r =>
        if e.toNat == 34 then
          (psbF f r).map (fun p => (Char.ofNat 34 :: p.1, p.2))
        else if e.toNat == 92 then
          (psbF f r).map (fun p => (Char.ofNat 92 :: p.1, p.2))
        else if e.toNat == 47 then
          (psbF f r).map (fun p => (Char.ofNat 47 :: p.1, p.2))
        else if e.toNat == 98 then
          (psbF f r).map (fun p => (Char.ofNat 8 :: p.1, p.2))
        else if e.toNat == 116 then
          (psbF f r).map (fun p => (Char.ofNat 9 :: p.1, p.2))
        else if e.toNat == 110 then
          (psbF f r).map (fun p => (Char.ofNat 10 :: p.1, p.2))
        else if e.toNat == 102 then
          (psbF f r).map (fun p => (Char.ofNat 12 :: p.1, p.2))
        else if e.toNat == 114 then
          (psbF f r).map (fun p => (Char.ofNat 13 :: p.1, p.2))
        else if e.toNat == 117 then
          match r with
          | h1 :: h2 :: h3 :: h4 :: r2 =>
            match hex4Val h1 h2 h3 h4 with
            | none => none
            | some n =>
              if 55296 ≤ n ∧ n < 56320 then
                match r2 with
                | s1 :: s2 :: g1 :: g2 :: g3 :: g4 :: r3 =>
                  if s1.toNat == 92 && s2.toNat == 117 then
                    match hex4Val g1 g2 g3 g4 with
                    | some m =>
                      if 56320 ≤ m ∧ m < 57344 then
                        (psbF f r3).map (fun p =>
                          (Char.ofNat (65536 + (n - 55296) * 1024 + (m - 56320))
                            :: p.1, p.2))
                      else none
                    | none => none
                  else none
                | _ => none
              else if 56320 ≤ n ∧ n < 57344 then none
              else (psbF f r2).map (fun p => (Char.ofNat n :: p.1, p.2))
          | _ => none
        else none
    else (psbF f rest).map (fun p => (c :: p.1, p.2))) := rfl

/-- Scanning a non-surrogate `\uXXXX` escape. -/
theorem psbF_u (f : Nat) (h1 h2 h3 h4 : Char) (r2 : List Char) (n : Nat)
    (hv : hex4Val h1 h2 h3 h4 = some n)
    (hs1 : ¬(55296 ≤ n ∧ n < 56320)) (hs2 : ¬(56320 ≤ n ∧ n < 57344)) :
    psbF (f + 1) (Char.ofNat 92 :: Char.ofNat 117 :: h1 :: h2 :: h3 ::
        h4 :: r2) =
      (psbF f r2).map (fun p => (Char.ofNat n :: p.1, p.2)) := by
  rw [psbF_cons,
    if_neg (by decide : ¬(((Char.ofNat 92).toNat == 34) = true)),
    if_pos (by decide : ((Char.ofNat 92).toNat == 92) = true)]
  try dsimp only
  rw [if_neg (by decide : ¬(((Char.ofNat 117).toNat == 34) = true)),
    if_neg (by decide : ¬(((Char.ofNat 117).toNat == 92) = true)),
    if_neg (by decide : ¬(((Char.ofNat 117).toNat == 47) = true)),
    if_neg (by decide : ¬(((Char.ofNat 117).toNat == 98) = true)),
    if_neg (by decide : ¬(((Char.ofNat 117).toNat == 116) = true)),
    if_neg (by decide : ¬(((Char.ofNat 117).toNat == 110) = true)),
    if_neg (by decide : ¬(((Char.ofNat 117).toNat == 102) = true)),
    if_neg (by decide : ¬(((Char.ofNat 117).toNat == 114) = true)),
    if_pos (by decide : ((Char.ofNat 117).toNat == 117) = true)]
  try dsimp only
  rw [hv]
  try dsimp only
  rw [if_neg hs1, if_neg hs2]

/-- Scanning a surrogate-pair `\uXXXX\uXXXX` escape. -/
theorem psbF_uPair (f : Nat) (h1 h2 h3 h4 g1 g2 g3 g4 : Char)
    (r3 : List Char) (n m : Nat)
    (hvn : hex4Val h1 h2 h3 h4 = some n) (hvm : hex4Val g1 g2 g3 g4 = some m)
    (hn : 55296 ≤ n ∧ n < 56320) (hm : 56320 ≤ m ∧ m < 57344) :
    psbF (f + 1) (Char.ofNat 92 :: Char.ofNat 117 :: h1 :: h2 :: h3 ::
        h4 :: Char.ofNat 92 :: Char.ofNat 117 :: g1 :: g2 :: g3 :: g4 :: r3) =
      (psbF f r3).map (fun p =>
        (Char.ofNat (65536 + (n - 55296) * 1024 + (m - 56320)) :: p.1, p.2)) := by
  rw [psbF_cons,
    if_neg (by decide : ¬(((Char.ofNat 92).toNat == 34) = true)),
    if_pos (by decide : ((Char.ofNat 92).toNat == 92) = true)]
  try dsimp only
  rw [if_neg (by decide : ¬(((Char.ofNat 117).toNat == 34) = true)),
    if_neg (by decide : ¬(((Char.ofNat 117).toNat == 92) = true)),
    if_neg (by decide : ¬(((Char.ofNat 117).toNat == 47) = true)),
    if_neg (by decide : ¬(((Char.ofNat 117).toNat == 98) = true)),
    if_neg (by decide : ¬(((Char.ofNat 117).toNat == 116) = true)),
    if_neg (by decide : ¬(((Char.ofNat 117).toNat == 110) = true)),
    if_neg (by decide : ¬(((Char.ofNat 117).toNat == 102) = true)),
    if_neg (by decide : ¬(((Char.ofNat 117).toNat == 114) = true)),
    if_pos (by decide : ((Char.ofNat 117).toNat == 117) = true)]
  try dsimp only
  rw [hvn]
  try dsimp only
  rw [if_pos hn]
  try dsimp only
  rw [if_pos (by decide :
    ((Char.ofNat 92).toNat == 92 && (Char.ofNat 117).toNat == 117) = true)]
  rw [hvm]
  try dsimp only
  rw [if_pos hm]

/-- Scanning the escape of one character undoes the escape. -/
theorem psbF_escChar (c : Char) (f : Nat) (tail : List Char) :
    psbF (f + 1) (escChar c ++ tail) =
      (psbF f tail).map (fun p => (c :: p.1, p.2)) := by
  have hvalid := char_toNat_valid c
  by_cases h34 : c.toNat = 34
  · have hc : c = Char.ofNat 34 := by
      rw [← h34]; exact (Char.ofNat_toNat c).symm
    subst hc; rfl
  by_cases h92 : c.toNat = 92
  · have hc : c = Char.ofNat 92 := by
      rw [← h92]; exact (Char.ofNat_toNat c).symm
    subst hc; rfl
  by_cases h8 : c.toNat = 8
  · have hc : c = Char.ofNat 8 := by
      rw [← h8]; exact (Char.ofNat_toNat c).symm
    subst hc; rfl
  by_cases h9 : c.toNat = 9
  · have hc : c = Char.ofNat 9 := by
      rw [← h9]; exact (Char.ofNat_toNat c).symm
    subst hc; rfl
  by_cases h10 : c.toNat = 10
  · have hc : c = Char.ofNat 10 := by
      rw [← h10]; exact (Char.ofNat_toNat c).symm
    subst hc; rfl
  by_cases h12 : c.toNat = 12
  · have hc : c = Char.ofNat 12 := by
      rw [← h12]; exact (Char.ofNat_toNat c).symm
    subst hc; rfl
  by_cases h13 : c.toNat = 13
  · have hc : c = Char.ofNat 13 := by
      rw [← h13]; exact (Char.ofNat_toNat c).symm
    subst hc; rfl
  have hesc : escChar c =
      if c.toNat < 32 then uEscape c.toNat
      else if c.toNat < 127 then [c]
      else if c.toNat < 65536 then uEscape c.toNat
      else uEscape (55296 + (c.toNat - 65536) / 1024) ++
        uEscape (56320 + (c.toNat - 65536) % 1024) := by
    unfold escChar
    dsimp only
    rw [if_neg (by simp [h34] : ¬((c.toNat == 34) = true)),
      if_neg (by simp [h92] : ¬((c.toNat == 92) = true)),
      if_neg (by simp [h8] : ¬((c.toNat == 8) = true)),
      if_neg (by simp [h9] : ¬((c.toNat == 9) = true)),
      if_neg (by simp [h10] : ¬((c.toNat == 10) = true)),
      if_neg (by simp [h12] : ¬((c.toNat == 12) = true)),
      if_neg (by simp [h13] : ¬((c.toNat == 13) = true))]
  by_cases hctl : c.toNat < 32
  · rw [hesc, if_pos hctl,
      show uEscape c.toNat ++ tail = Char.ofNat 92 :: Char.ofNat 117 ::
        hexChar (c.toNat / 4096 % 16) :: hexChar (c.toNat / 256 % 16) ::
        hexChar (c.toNat / 16 % 16) :: hexChar (c.toNat % 16) :: tail from rfl,
      psbF_u _ _ _ _ _ _ c.toNat
        (hex4Val_uEscape c.toNat (by omega)) (by omega) (by omega),
      Char.ofNat_toNat]
  by_cases hascii : c.toNat < 127
  · rw [hesc, if_neg hctl, if_pos hascii, show [c] ++ tail = c :: tail from rfl,
      psbF_cons, if_neg (by simp [h34] : ¬((c.toNat == 34) = true)),
      if_neg (by simp [h92] : ¬((c.toNat == 92) = true))]
  by_cases hbmp : c.toNat < 65536
  · rw [hesc, if_neg hctl, if_neg hascii, if_pos hbmp,
      show uEscape c.toNat ++ tail = Char.ofNat 92 :: Char.ofNat 117 ::
        hexChar (c.toNat / 4096 % 16) :: hexChar (c.toNat / 256 % 16) ::
        hexChar (c.toNat / 16 % 16) :: hexChar (c.toNat % 16) :: tail from rfl,
      psbF_u _ _ _ _ _ _ c.toNat
        (hex4Val_uEscape c.toNat (by omega)) (by omega) (by omega),
      Char.ofNat_toNat]
  · have hhi : 55296 + (c.toNat - 65536) / 1024 < 65536 := by omega
    have hlo : 56320 + (c.toNat - 65536) % 1024 < 65536 := by
      have := Nat.mod_lt (c.toNat - 65536) (show 0 < 1024 from by omega)
      omega
    rw [hesc, if_neg hctl, if_neg hascii, if_neg hbmp,
      show (uEscape (55296 + (c.toNat - 65536) / 1024) ++
          uEscape (56320 + (c.toNat - 65536) % 1024)) ++ tail =
        Char.ofNat 92 :: Char.ofNat 117 ::
        hexChar ((55296 + (c.toNat - 65536) / 1024) / 4096 % 16) ::
        hexChar ((55296 + (c.toNat - 65536) / 1024) / 256 % 16) ::
        hexChar ((55296 + (c.toNat - 65536) / 1024) / 16 % 16) ::
        hexChar ((55296 + (c.toNat - 65536) / 1024) % 16) ::
        Char.ofNat 92 :: Char.ofNat 117 ::
        hexChar ((56320 + (c.toNat - 65536) % 1024) / 4096 % 16) ::
        hexChar ((56320 + (c.toNat - 65536) % 1024) / 256 % 16) ::
        hexChar ((56320 + (c.toNat - 65536) % 1024) / 16 % 16) ::
        hexChar ((56320 + (c.toNat - 65536) % 1024) % 16) :: tail from rfl,
      psbF_uPair _ _ _ _ _ _ _ _ _ _ _ _
        (hex4Val_uEscape _ hhi) (hex4Val_uEscape _ hlo)
        (by constructor <;> omega)
        (by
          have := Nat.mod_lt (c.toNat - 65536) (show 0 < 1024 from by omega)
          constructor <;> omega)]
    have hcomb : 65536 + (55296 + (c.toNat - 65536) / 1024 - 55296) * 1024 +
        (56320 + (c.toNat - 65536) % 1024 - 56320) = c.toNat := by
      have := Nat.div_add_mod (c.toNat - 65536) 1024
      omega
    rw [hcomb, Char.ofNat_toNat]

theorem escChar_length (c : Char) : 1 ≤ (escChar c).length := by
  unfold escChar
  try dsimp only
  split_ifs <;> simp [uEscape]

theorem length_le_flatMap_escChar (l : List Char) :
    l.length ≤ (l.flatMap escChar).length := by
  induction l with
  | nil => simp
  | cons c cs ih =>
    rw [List.flatMap_cons, List.length_append, List.length_cons]
    have := escChar_length c
    omega

/-- Scanning the escaped body of a string up to a closing quote undoes the
whole escape, for any sufficient fuel. -/
theorem psbF_escBody (l : List Char) (f : Nat) (tail : List Char) :
    psbF (l.length + (f + 1)) (l.flatMap escChar ++ (Char.ofNat 34 :: tail)) =
      some (l, tail) := by
  induction l generalizing f with
  | nil => rfl
  | cons c cs ih =>
    rw [List.flatMap_cons, List.append_assoc,
      show (c :: cs).length + (f + 1) = cs.length + (f + 1) + 1 from by
        rw [List.length_cons]; omega,
      psbF_escChar, ih]
    rfl

/-- Scanning the escaped body of a string up to a closing quote undoes the
whole escape. -/
theorem parseStringBody_escBody (l tail : List Char) :
    parseStringBody (l.flatMap escChar ++ (Char.ofNat 34 :: tail)) =
      some (l, tail) := by
  rw [parseStringBody]
  obtain ⟨k, hk⟩ : ∃ k,
      (l.flatMap escChar ++ (Char.ofNat 34 :: tail)).length + 1 =
        l.length + (k + 1) := by
    refine ⟨(l.flatMap escChar).length - l.length + tail.length + 1, ?_⟩
    have := length_le_flatMap_escChar l
    rw [List.length_append, List.length_cons]
    omega
  rw [hk, psbF_escBody]

/-! ## Cursor codec: `aggregator.py` lines 23–48 -/

/-- Python `int(item.published.timestamp())`: the timestamp is the exact
rational `published / 10^6` and `int` truncates toward zero, which on the
microsecond numerator is `Int.tdiv` by `10^6`. -/
def tOf (x : FeedItem) : Int := Int.tdiv x.published 1000000

/-- Characters of `json.dumps({"t": t, "v": v})` under the default options:
`ensure_ascii=True` and the separators `", "` and `": "` — that is,
`\x7b"t": <t>, "v": <v>\x7d`. -/
def cursorBlob (t : Int) (v : String) : List Char :=
  Char.ofNat 123 :: Char.ofNat 34 :: Char.ofNat 116 :: Char.ofNat 34 ::
  Char.ofNat 58 :: Char.ofNat 32 ::
  (pyIntRepr t ++ (Char.ofNat 44 :: Char.ofNat 32 :: Char.ofNat 34 ::
    Char.ofNat 118 :: Char.ofNat 34 :: Char.ofNat 58 :: Char.ofNat 32 ::
    (escString v ++ [Char.ofNat 125])))

/-- Python `make_cursor` (`aggregator.py` lines 23–35):
`base64.urlsafe_b64encode(json.dumps({"t": int(ts), "v": vid}).encode()).decode()`.
The dumped text is ASCII (`ensure_ascii`), so its UTF-8 encoding is the
list of its code points. -/
def make_cursor (x : FeedItem) : String :=
  urlsafe_b64encode ((cursorBlob (tOf x) x.video_id).map Char.toNat)

/-- UTF-8 decoding as `json.loads` applies to a bytes argument, modelled on
the ASCII range (the only bytes the codec produces). -/
def bytesToAscii (bs : List Nat) : Option (List Char) :=
  if bs.all (fun b => b < 128) then some (bs.map Char.ofNat) else none

/-- Python `decode_cursor` (`aggregator.py` lines 38–48):
`d = json.loads(base64.urlsafe_b64decode(cursor)); return d["t"], d["v"]`.
Any failure (bad base64, bad UTF-8, bad JSON, missing or mistyped keys) is
`none`; in Python these raise, and `aggregate_feeds` does not catch them. -/
def decode_cursor (c : String) : Option (Int × String) :=
  match urlsafe_b64decode c with
  | none => none
  | some bs =>
    match bytesToAscii bs with
    | none => none
    | some chars =>
      match json_loads (String.mk chars) with
      | some (JDoc.obj ms) =>
        match jsonLookup ms "t", jsonLookup ms "v" with
        | some (JVal.jint t), some (JVal.jstr v) => some (t, v)
        | _, _ => none
      | _ => none

/-! ## ASCII bounds of the dumped text -/

theorem hexChar_ascii : ∀ m, m < 16 → (hexChar m).toNat < 128 := by decide

theorem escChar_ascii (c : Char) : ∀ d ∈ escChar c, d.toNat < 128 := by
  intro d hd
  unfold escChar at hd
  dsimp only at hd
  have huesc : ∀ k, d ∈ uEscape k → d.toNat < 128 := by
    intro k hk
    simp only [uEscape, List.mem_cons, List.not_mem_nil, or_false] at hk
    rcases hk with h | h | h | h | h | h <;> subst h
    · decide
    · decide
    · exact hexChar_ascii _ (Nat.mod_lt _ (by omega))
    · exact hexChar_ascii _ (Nat.mod_lt _ (by omega))
    · exact hexChar_ascii _ (Nat.mod_lt _ (by omega))
    · exact hexChar_ascii _ (Nat.mod_lt _ (by omega))
  split_ifs at hd with hc1 hc2 hc3 hc4 hc5 hc6 hc7 hc8 hc9 hc10
  · simp only [List.mem_cons, List.not_mem_nil, or_false] at hd
    rcases hd with h | h <;> (subst h; decide)
  · simp only [List.mem_cons, List.not_mem_nil, or_false] at hd
    rcases hd with h | h <;> (subst h; decide)
  · simp only [List.mem_cons, List.not_mem_nil, or_false] at hd
    rcases hd with h | h <;> (subst h; decide)
  · simp only [List.mem_cons, List.not_mem_nil, or_false] at hd
    rcases hd with h | h <;> (subst h; decide)
  · simp only [List.mem_cons, List.not_mem_nil, or_false] at hd
    rcases hd with h | h <;> (subst h; decide)
  · simp only [List.mem_cons, List.not_mem_nil, or_false] at hd
    rcases hd with h | h <;> (subst h; decide)
  · simp only [List.mem_cons, List.not_mem_nil, or_false] at hd
    rcases hd with h | h <;> (subst h; decide)
  · exact huesc _ hd
  · simp only [List.mem_cons, List.not_mem_nil, or_false] at hd
    subst hd
    omega
  · exact huesc _ hd
  · rw [List.mem_append] at hd
    rcases hd with h | h
    · exact huesc _ h
    · exact huesc _ h

theorem pyIntRepr_ascii (t : Int) : ∀ d ∈ pyIntRepr t, d.toNat < 128 := by
  intro d hd
  have hdig : ∀ e, isDigitChar e = true → e.toNat < 128 := by
    intro e he
    simp only [isDigitChar, Bool.and_eq_true, decide_eq_true_eq] at he
    omega
  rw [pyIntRepr] at hd
  split_ifs at hd
  · rcases List.mem_cons.mp hd with h | h
    · subst h; decide
    · exact hdig d (natDigits_digits _ d h)
  · exact hdig d (natDigits_digits _ d hd)

theorem cursorBlob_ascii (t : Int) (v : String) :
    ∀ d ∈ cursorBlob t v, d.toNat < 128 := by
  intro d hd
  simp only [cursorBlob, escString, List.mem_cons, List.mem_append,
    List.not_mem_nil, or_false] at hd
  rcases hd with h | h | h | h | h | h | h
  · subst h; decide
  · subst h; decide
  · subst h; decide
  · subst h; decide
  · subst h; decide
  · subst h; decide
  rcases h with h | h
  · exact pyIntRepr_ascii t d h
  rcases h with h | h | h | h | h | h | h | h
  · subst h; decide
  · subst h; decide
  · subst h; decide
  · subst h; decide
  · subst h; decide
  · subst h; decide
  · subst h; decide
  rcases h with h | h
  rcases h with h | h
  · subst h; decide
  rcases h with h | h
  · rcases List.mem_flatMap.mp h with ⟨e, _, hde⟩
    exact escChar_ascii e d hde
  · subst h; decide
  · subst h; decide

/-! ## Round trip of the whole cursor codec -/

theorem pyIntRepr_cons (t : Int) :
    ∃ d ds, pyIntRepr t = d :: ds ∧ (d.toNat = 45 ∨ isDigitChar d = true) := by
  rw [pyIntRepr]
  split_ifs with h
  · exact ⟨_, _, rfl, Or.inl (by decide)⟩
  · cases hnd : natDigits t.toNat with
    | nil => exact absurd hnd (natDigits_ne_nil _)
    | cons d ds =>
      exact ⟨d, ds, rfl, Or.inr (natDigits_digits _ d (by rw [hnd]; simp))⟩

theorem skipWs_cons_of_not_ws (c : Char) (l : List Char)
    (h : isJsonWs c = false) : skipWs (c :: l) = c :: l := by
  rw [skipWs, List.dropWhile_cons, h]
  rfl

theorem skipWs_pyIntRepr (t : Int) (rest : List Char) :
    skipWs (pyIntRepr t ++ rest) = pyIntRepr t ++ rest := by
  obtain ⟨d, ds, hd, hdi⟩ := pyIntRepr_cons t
  rw [hd, List.cons_append]
  apply skipWs_cons_of_not_ws
  rcases hdi with h | h
  · simp [isJsonWs, h]
  · simp only [isDigitChar, Bool.and_eq_true, decide_eq_true_eq] at h
    simp only [isJsonWs, Bool.or_eq_false_iff, beq_eq_false_iff_ne]
    omega

/-- Unfolding equation of `parseScalar` on nonempty input. -/
theorem parseScalar_cons (c : Char) (rest : List Char) :
    parseScalar (c :: rest) =
      if c.toNat == 34 then
        (parseStringBody rest).map (fun p => (JVal.jstr (String.mk p.1), p.2))
      else (parseJsonInt (c :: rest)).map (fun p => (JVal.jint p.1, p.2)) := rfl

/-- Parsing the serialization of an integer value. -/
theorem parseScalar_int (t : Int) (rest : List Char)
    (hrest : ∀ r rs, rest = r :: rs → isDigitChar r = false) :
    parseScalar (pyIntRepr t ++ rest) = some (JVal.jint t, rest) := by
  obtain ⟨d, ds, hd, hdi⟩ := pyIntRepr_cons t
  have hq : ¬((d.toNat == 34) = true) := by
    rcases hdi with h | h
    · simp [h]
    · simp only [isDigitChar, Bool.and_eq_true, decide_eq_true_eq] at h
      simp only [beq_iff_eq]
      omega
  rw [hd, List.cons_append, parseScalar_cons, if_neg hq, ← List.cons_append,
    ← hd, parseJsonInt_pyIntRepr t rest hrest]
  rfl

/-- Parsing the serialization of a string value. -/
theorem parseScalar_str (v : String) (rest : List Char) :
    parseScalar (escString v ++ rest) = some (JVal.jstr v, rest) := by
  rw [show escString v ++ rest = Char.ofNat 34 ::
      (v.data.flatMap escChar ++ (Char.ofNat 34 :: rest)) from by
        simp [escString, List.append_assoc],
    parseScalar_cons,
    if_pos (by decide : ((Char.ofNat 34).toNat == 34) = true),
    parseStringBody_escBody]
  rfl

/-- Unfolding equation of `parseMembers` with a step of fuel. -/
theorem parseMembers_succ (f : Nat) (l : List Char) :
    parseMembers (f + 1) l =
      match parseMember l with
      | none => none
      | some (kv, r3) =>
        match skipWs r3 with
        | [] => none
        | c3 :: r4 =>
          if c3.toNat == 44 then
            match parseMembers f (skipWs r4) with
            | some (ms, r5) => some (kv :: ms, r5)
            | none => none
          else if c3.toNat == 125 then
            some ([kv], r4)
          else none := rfl

/-- Parsing the member `"t": <int>` of the cursor object. -/
theorem parseMember_key_t (t : Int) (y : List Char)
    (hy : ∀ r rs, y = r :: rs → isDigitChar r = false) :
    parseMember (Char.ofNat 34 :: Char.ofNat 116 :: Char.ofNat 34 ::
        Char.ofNat 58 :: Char.ofNat 32 :: (pyIntRepr t ++ y)) =
      some ((String.mk [Char.ofNat 116], JVal.jint t), y) := by
  rw [show parseMember (Char.ofNat 34 :: Char.ofNat 116 :: Char.ofNat 34 ::
        Char.ofNat 58 :: Char.ofNat 32 :: (pyIntRepr t ++ y)) =
      (parseScalar (skipWs (Char.ofNat 32 :: (pyIntRepr t ++ y)))).map
        (fun p => ((String.mk [Char.ofNat 116], p.1), p.2)) from rfl,
    show skipWs (Char.ofNat 32 :: (pyIntRepr t ++ y)) =
      skipWs (pyIntRepr t ++ y) from rfl,
    skipWs_pyIntRepr, parseScalar_int t y hy]
  rfl

/-- Parsing the member `"v": <string>` of the cursor object. -/
theorem parseMember_key_v (v : String) (z : List Char) :
    parseMember (Char.ofNat 34 :: Char.ofNat 118 :: Char.ofNat 34 ::
        Char.ofNat 58 :: Char.ofNat 32 :: (escString v ++ z)) =
      some ((String.mk [Char.ofNat 118], JVal.jstr v), z) := by
  rw [show parseMember (Char.ofNat 34 :: Char.ofNat 118 :: Char.ofNat 34 ::
        Char.ofNat 58 :: Char.ofNat 32 :: (escString v ++ z)) =
      (parseScalar (skipWs (Char.ofNat 32 :: (escString v ++ z)))).map
        (fun p => ((String.mk [Char.ofNat 118], p.1), p.2)) from rfl,
    show skipWs (Char.ofNat 32 :: (escString v ++ z)) =
      escString v ++ z from rfl,
    parseScalar_str v z]
  rfl

/-- Parsing the member list of the cursor object. -/
theorem parseMembers_cursor (f : Nat) (t : Int) (v : String) :
    parseMembers (f + 2) (Char.ofNat 34 :: Char.ofNat 116 :: Char.ofNat 34 ::
      Char.ofNat 58 :: Char.ofNat 32 ::
      (pyIntRepr t ++ (Char.ofNat 44 :: Char.ofNat 32 :: Char.ofNat 34 ::
        Char.ofNat 118 :: Char.ofNat 34 :: Char.ofNat 58 :: Char.ofNat 32 ::
        (escString v ++ [Char.ofNat 125])))) =
      some ([(String.mk [Char.ofNat 116], JVal.jint t),
             (String.mk [Char.ofNat 118], JVal.jstr v)], []) := by
  rw [show (f + 2) = (f + 1) + 1 from rfl, parseMembers_succ,
    parseMember_key_t t _ (fun r rs h => by cases h; decide)]
  show (match parseMembers (f + 1) (Char.ofNat 34 :: Char.ofNat 118 ::
      Char.ofNat 34 :: Char.ofNat 58 :: Char.ofNat 32 ::
      (escString v ++ [Char.ofNat 125])) with
    | some (ms, r5) => some ((String.mk [Char.ofNat 116], JVal.jint t) :: ms, r5)
    | none => none) =
    some ([(String.mk [Char.ofNat 116], JVal.jint t),
           (String.mk [Char.ofNat 118], JVal.jstr v)], [])
  rw [parseMembers_succ, parseMember_key_v v [Char.ofNat 125]]
  rfl

/-- Parsing the dumped cursor object. -/
theorem json_loads_cursorBlob (t : Int) (v : String) :
    json_loads (String.mk (cursorBlob t v)) =
      some (JDoc.obj [("t", JVal.jint t), ("v", JVal.jstr v)]) := by
  show (match parseMembers ((Char.ofNat 34 :: Char.ofNat 116 :: Char.ofNat 34 ::
      Char.ofNat 58 :: Char.ofNat 32 ::
      (pyIntRepr t ++ (Char.ofNat 44 :: Char.ofNat 32 :: Char.ofNat 34 ::
        Char.ofNat 118 :: Char.ofNat 34 :: Char.ofNat 58 :: Char.ofNat 32 ::
        (escString v ++ [Char.ofNat 125])))).length + 1)
      (Char.ofNat 34 :: Char.ofNat 116 :: Char.ofNat 34 ::
      Char.ofNat 58 :: Char.ofNat 32 ::
      (pyIntRepr t ++ (Char.ofNat 44 :: Char.ofNat 32 :: Char.ofNat 34 ::
        Char.ofNat 118 :: Char.ofNat 34 :: Char.ofNat 58 :: Char.ofNat 32 ::
        (escString v ++ [Char.ofNat 125])))) with
    | some (ms, r) =>
        if skipWs r = ([] : List Char) then some (JDoc.obj ms) else none
    | none => none) =
    some (JDoc.obj [("t", JVal.jint t), ("v", JVal.jstr v)])
  rw [show (Char.ofNat 34 :: Char.ofNat 116 :: Char.ofNat 34 ::
      Char.ofNat 58 :: Char.ofNat 32 ::
      (pyIntRepr t ++ (Char.ofNat 44 :: Char.ofNat 32 :: Char.ofNat 34 ::
        Char.ofNat 118 :: Char.ofNat 34 :: Char.ofNat 58 :: Char.ofNat 32 ::
        (escString v ++ [Char.ofNat 125])))).length + 1 =
      ((pyIntRepr t ++ (Char.ofNat 44 :: Char.ofNat 32 :: Char.ofNat 34 ::
        Char.ofNat 118 :: Char.ofNat 34 :: Char.ofNat 58 :: Char.ofNat 32 ::
        (escString v ++ [Char.ofNat 125]))).length + 4) + 2 from by
      simp only [List.length_cons]
      try omega,
    parseMembers_cursor]
  try rfl

/-- Round trip of the cursor codec, the content of the spec's cursor law:
decoding an encoded cursor recovers the truncated-seconds timestamp and the
video id exactly. -/
theorem decode_make_cursor (x : FeedItem) :
    decode_cursor (make_cursor x) = some (tOf x, x.video_id) := by
  have hbytes : ∀ b ∈ (cursorBlob (tOf x) x.video_id).map Char.toNat, b < 256 := by
    intro b hb
    rcases List.mem_map.mp hb with ⟨c, hc, hbc⟩
    have := cursorBlob_ascii (tOf x) x.video_id c hc
    omega
  have hascii : ((cursorBlob (tOf x) x.video_id).map Char.toNat).all
      (fun b => b < 128) = true := by
    rw [List.all_eq_true]
    intro b hb
    rcases List.mem_map.mp hb with ⟨c, hc, hbc⟩
    have := cursorBlob_ascii (tOf x) x.video_id c hc
    simp only [decide_eq_true_eq]
    omega
  have hmapid : ((cursorBlob (tOf x) x.video_id).map Char.toNat).map Char.ofNat
      = cursorBlob (tOf x) x.video_id := by
    rw [List.map_map]
    have : (cursorBlob (tOf x) x.video_id).map (Char.ofNat ∘ Char.toNat) =
        (cursorBlob (tOf x) x.video_id).map id := by
      apply List.map_congr_left
      intro c hc
      exact Char.ofNat_toNat c
    rw [this, List.map_id]
  rw [decode_cursor, make_cursor,
    show urlsafe_b64decode (urlsafe_b64encode
        ((cursorBlob (tOf x) x.video_id).map Char.toNat)) =
      b64DecodeChars b64UrlVal (b64EncodeChunks b64UrlChar
        ((cursorBlob (tOf x) x.video_id).map Char.toNat)) from rfl,
    b64_roundtrip _ hbytes]
  show (match bytesToAscii ((cursorBlob (tOf x) x.video_id).map Char.toNat) with
    | none => none
    | some chars =>
      match json_loads (String.mk chars) with
      | some (JDoc.obj ms) =>
        match jsonLookup ms "t", jsonLookup ms "v" with
        | some (JVal.jint t), some (JVal.jstr v) => some (t, v)
        | _, _ => none
      | _ => none) = some (tOf x, x.video_id)
  rw [bytesToAscii, if_pos hascii, hmapid]
  show (match json_loads (String.mk (cursorBlob (tOf x) x.video_id)) with
    | some (JDoc.obj ms) =>
      match jsonLookup ms "t", jsonLookup ms "v" with
      | some (JVal.jint t), some (JVal.jstr v) => some (t, v)
      | _, _ => none
    | _ => none) = some (tOf x, x.video_id)
  rw [json_loads_cursorBlob]
  rfl

/-- An encoded cursor is never the empty string (so the Python truthiness
test `if cursor:` in `aggregate_feeds` does not skip it). -/
theorem make_cursor_ne_empty (x : FeedItem) : make_cursor x ≠ "" := by
  rw [make_cursor, urlsafe_b64encode]
  obtain ⟨y, ys, hey⟩ := b64EncodeChunks_cons b64UrlChar
    (Char.toNat (Char.ofNat 123))
    ((Char.ofNat 34 :: Char.ofNat 116 :: Char.ofNat 34 ::
      Char.ofNat 58 :: Char.ofNat 32 ::
      (pyIntRepr (tOf x) ++ (Char.ofNat 44 :: Char.ofNat 32 :: Char.ofNat 34 ::
        Char.ofNat 118 :: Char.ofNat 34 :: Char.ofNat 58 :: Char.ofNat 32 ::
        (escString x.video_id ++ [Char.ofNat 125])))).map Char.toNat)
  rw [show (cursorBlob (tOf x) x.video_id).map Char.toNat =
      Char.toNat (Char.ofNat 123) ::
      ((Char.ofNat 34 :: Char.ofNat 116 :: Char.ofNat 34 ::
        Char.ofNat 58 :: Char.ofNat 32 ::
        (pyIntRepr (tOf x) ++ (Char.ofNat 44 :: Char.ofNat 32 ::
          Char.ofNat 34 :: Char.ofNat 118 :: Char.ofNat 34 :: Char.ofNat 58 ::
          Char.ofNat 32 ::
          (escString x.video_id ++ [Char.ofNat 125])))).map Char.toNat)
      from rfl, hey]
  intro hcon
  have : (String.mk (y :: ys)).data = ("" : String).data := by rw [hcon]
  simp at this

/-! ## Aggregator: `aggregator.py` lines 51–98 -/

/-- Python truthiness of the optional `cursor` argument: `None` and the
empty string are both falsy under `if cursor:` (line 88). -/
def cursorTruthy : Option String → Bool
  | none => false
  | some s => !(s == "")

/-- Flattening step (line 78): `[i for f in feeds for i in f]`. -/
def flat_items (feeds : List (List FeedItem)) : List FeedItem := feeds.flatten

/-- Shorts filtering step (lines 80–82): drop shorts unless
`include_shorts`. -/
def filtered_items (feeds : List (List FeedItem)) (include_shorts : Bool) :
    List FeedItem :=
  if include_shorts then flat_items feeds
  else (flat_items feeds).filter (fun i => !(is_short i))

/-- Sorting step (line 85): Python's stable `list.sort` with
`key=(published, video_id)` and `reverse=True`, as the stable descending
sort `sortDesc`. -/
def sorted_items (feeds : List (List FeedItem)) (include_shorts : Bool) :
    List FeedItem :=
  sortDesc (filtered_items feeds include_shorts)

/-- Cursor bound test (line 90):
`(i.published.timestamp(), i.video_id) < (t, v)`.  The float timestamp is
the exact rational `published / 10^6`, so comparison against the integer
`t` is done with cleared denominators. -/
def beforeCursor (t : Int) (v : String) (i : FeedItem) : Bool :=
  i.published < t * 1000000 ||
    (i.published == t * 1000000 && strLtB i.video_id v)

/-- Cursor filtering step (lines 87–90).  A `decode_cursor` failure raises
in Python and propagates out of `aggregate_feeds`; here it is an error
value. -/
def bounded_items (feeds : List (List FeedItem)) (include_shorts : Bool)
    (cursor : Option String) : Except String (List FeedItem) :=
  match cursor with
  | none => Except.ok (sorted_items feeds include_shorts)
  | some c =>
    if c == "" then Except.ok (sorted_items feeds include_shorts)
    else
      match decode_cursor c with
      | none => Except.error "cursor decode raised"
      | some (t, v) =>
          Except.ok ((sorted_items feeds include_shorts).filter
            (fun i => beforeCursor t v i))

/-- Python `aggregate_feeds` (`aggregator.py` lines 51–98).  The page is
`items[:limit]`; `next_cursor` is `make_cursor(page[-1])` when
`len(items) > limit`; `page[-1]` on an empty page raises `IndexError`
(which happens exactly when `limit = 0` and items remain). -/
def aggregate_feeds (feeds : List (List FeedItem)) (include_shorts : Bool)
    (limit : Nat) (cursor : Option String) :
    Except String (List FeedItem × Option String) :=
  match bounded_items feeds include_shorts cursor with
  | Except.error e => Except.error e
  | Except.ok items =>
    let page := items.take limit
    if limit < items.length then
      match page.getLast? with
      | some x => Except.ok (page, some (make_cursor x))
      | none => Except.error "IndexError: list index out of range"
    else Except.ok (page, none)

/-! ## Boundary validation: `routes_feed.py` lines 28–71 -/

/-- FastAPI validation of the `limit` query parameter
(`Query(default=24, ge=1, le=60)`, line 32): out-of-range values are
rejected with a client error before the handler body runs. -/
def limit_valid (limit : Int) : Bool := 1 ≤ limit && limit ≤ 60

/-- The `get_feed` cursor validation (`routes_feed.py` lines 62–71).
`true` means the cursor is forwarded to `aggregate_feeds`; `false` means
HTTP 400.  A falsy (absent or empty) cursor skips validation; otherwise
`base64.b64decode(cursor, validate=True)` must succeed — standard alphabet
only — and the decoded bytes must contain `|` (0x7c). -/
def validate_cursor (cursor : Option String) : Bool :=
  match cursor with
  | none => true
  | some c =>
    if c == "" then true
    else
      match b64decode_validate c with
      | none => false
      | some bs => bs.contains 124

/-! ## Feed cache fetcher: `app/rss/cache.py`

`fetch_and_cache_feed` is `async` and talks to Redis, httpx and
`xml.etree`; the embedding closes over those effects: the prior cache
content, the HTTP outcome and the random splay draw are inputs, the cache
write performed is an output.  The XML library (stdlib, not repository
code) is abstracted to its result: a document either fails to parse at
document level or yields a list of entries whose four relevant fields each
carry optional text (`None` both for a missing element and for missing
text/attribute, which the source treats identically). -/

/-- An `<entry>` of the feed document as `fetch_and_cache_feed` reads it:
`yt:videoId` text, `link` `href` attribute, `title` text, `published`
text. -/
structure RawEntry where
  videoId : Option String
  linkHref : Option String
  title : Option String
  published : Option String
deriving DecidableEq, Repr

/-- Outcome of the `httpx` GET: a transport error, or a response with a
status code whose body parses to `some` entry list or fails XML parsing
(`none`). -/
inductive FetchHttp where
  | transportError
  | response (status : Nat) (doc : Option (List RawEntry))
deriving DecidableEq, Repr

/-- Exceptions `fetch_and_cache_feed` lets escape: transport errors and
`raise_for_status` on a non-2xx response (both `httpx.HTTPError`). -/
inductive FetchErr where
  | httpError
  | statusError
deriving DecidableEq, Repr

/-- What a call performed: its return or raise, whether the HTTP request
was issued, and the cache write `(key, ttl, value)` if any. -/
structure FetchResult where
  result : Except FetchErr (List FeedItem)
  fetched : Bool
  cacheWrite : Option (String × Nat × List FeedItem)

/-- Redis key (`cache.py` lines 22–24). -/
def feed_cache_key (channel_id : String) : String := "yt:feed:" ++ channel_id

/-- Two-digit decimal field. -/
def parse2 (a b : Char) : Option Nat :=
  if isDigitChar a && isDigitChar b then
    some ((a.toNat - 48) * 10 + (b.toNat - 48))
  else none

/-- Four-digit decimal field. -/
def parse4 (a b c d : Char) : Option Nat :=
  match parse2 a b, parse2 c d with
  | some hi, some lo => some (hi * 100 + lo)
  | _, _ => none

/-- Days in a month of the proleptic Gregorian calendar. -/
def daysInMonth (y m : Nat) : Nat :=
  if m = 2 then
    if y % 4 = 0 && (y % 100 ≠ 0 || y % 400 = 0) then 29 else 28
  else if m = 4 || m = 6 || m = 9 || m = 11 then 30
  else 31

/-- Days between a civil date and 1970-01-01 (standard civil-from-days
inverse; `/` on `Int` is floor division for the positive divisors used
here). -/
def daysFromCivil (y m d : Int) : Int :=
  let yy := if m ≤ 2 then y - 1 else y
  let era := yy / 400
  let yoe := yy - era * 400
  let mp := (m + 9) % 12
  let doy := (153 * mp + 2) / 5 + d - 1
  let doe := yoe * 365 + yoe / 4 - yoe / 100 + doy
  era * 146097 + doe - 719468

/-- Fractional-second digits to microseconds: CPython pads or truncates to
six digits. -/
def fracToMicros (ds : List Char) : Nat :=
  (digitsVal ds) * (10 ^ (6 - ds.length)) % 1000000

/-- Offset suffix `±HH:MM` (or nothing) to signed seconds. -/
def parseOffset (l : List Char) : Option (Option Int) :=
  match l with
  | [] => some none
  | sgn :: o1 :: o2 :: col :: o3 :: o4 :: [] =>
    if (sgn.toNat == 43 || sgn.toNat == 45) && col.toNat == 58 then
      match parse2 o1 o2, parse2 o3 o4 with
      | some oh, some om =>
        if oh < 24 && om < 60 then
          let secs : Int := oh * 3600 + om * 60
          some (some (if sgn.toNat == 45 then -secs else secs))
        else none
      | _, _ => none
    else none
  | _ => none

/-- Model of `datetime.fromisoformat` on the `YYYY-MM-DD[T ]HH:MM:SS`,
optional `.ffffff` fraction, optional `±HH:MM` offset shape — the shape
feed timestamps take after the `Z` normalization.  The result is the
instant in microseconds since the epoch; a naive string (no offset) or any
other shape is a failure here (feed data always carries an offset; a naive
`datetime` would poison the later sort rather than this parse). -/
def fromisoformatModel (s : String) : Option Int :=
  match s.data with
  | y1 :: y2 :: y3 :: y4 :: da1 :: mo1 :: mo2 :: da2 :: d1 :: d2 :: sep ::
      h1 :: h2 :: co1 :: mi1 :: mi2 :: co2 :: se1 :: se2 :: rest =>
    if da1.toNat == 45 && da2.toNat == 45 &&
        (sep.toNat == 84 || sep.toNat == 116 || sep.toNat == 32) &&
        co1.toNat == 58 && co2.toNat == 58 then
      match parse4 y1 y2 y3 y4, parse2 mo1 mo2, parse2 d1 d2,
          parse2 h1 h2, parse2 mi1 mi2, parse2 se1 se2 with
      | some y, some mo, some d, some h, some mi, some se =>
        if 1 ≤ y && y ≤ 9999 && 1 ≤ mo && mo ≤ 12 && 1 ≤ d &&
            d ≤ daysInMonth y mo && h < 24 && mi < 60 && se < 60 then
          let withFrac : Option (Nat × List Char) :=
            match rest with
            | dot :: f1 :: fr =>
              if dot.toNat == 46 then
                let ds := f1 :: fr.takeWhile isDigitChar
                if isDigitChar f1 && ds.length ≤ 6 then
                  some (fracToMicros ds, fr.dropWhile isDigitChar)
                else none
              else some (0, rest)
            | _ => some (0, rest)
          match withFrac with
          | none => none
          | some (micros, offPart) =>
            match parseOffset offPart with
            | some (some offSecs) =>
              some (((daysFromCivil y mo d) * 86400 +
                (h * 3600 + mi * 60 + se : Nat) - offSecs) * 1000000 + micros)
            | _ => none
        else none
      | _, _, _, _, _, _ => none
    else none
  | _ => none

/-- Left-to-right replacement of every non-overlapping occurrence of
`pat`, the semantics of Python `str.replace`.  The fuel only drives the
recursion; each step consumes at least one input character when `pat` is
nonempty, so `length + 1` never exhausts it. -/
def replaceList (pat rep : List Char) : Nat → List Char → List Char
  | _, [] => []
  | 0, l => l
  | f + 1, c :: rest =>
    if List.isPrefixOf pat (c :: rest) then
      rep ++ replaceList pat rep f (List.drop pat.length (c :: rest))
    else c :: replaceList pat rep f rest

/-- Python `s.replace(pat, rep)` on the modelled character lists. -/
def pyReplace (s pat rep : String) : String :=
  String.mk (replaceList pat.data rep.data (s.data.length + 1) s.data)

/-- The `published` handling of `cache.py` line 101:
`datetime.fromisoformat(published_str.replace("Z", "+00:00"))`;
`str.replace` replaces every occurrence. -/
def parse_published (s : String) : Option Int :=
  fromisoformatModel (pyReplace s "Z" "+00:00")

/-- The entry loop body of `fetch_and_cache_feed` (`cache.py` lines
75–114): `none` when the entry is skipped (a missing element, missing or
empty text, or a `published` value `fromisoformat` rejects — `ValueError`
is caught and skips the entry), `some` the built `FeedItem` otherwise. -/
def parse_entry (channel_id : String) (e : RawEntry) : Option FeedItem :=
  match e.videoId, e.linkHref, e.title, e.published with
  | some vid, some link, some title, some pub =>
    if vid == "" || link == "" || title == "" || pub == "" then none
    else
      match parse_published pub with
      | none => none
      | some ts =>
          some { video_id := vid, channel_id := channel_id, title := title,
                 link := link, published := ts }
  | _, _, _, _ => none

/-- Python `fetch_and_cache_feed` (`cache.py` lines 27–120) over the
explicit world: `cached` is what `redis.get` returns for the channel key —
the cache stores the JSON serialization of the items, which round-trips,
so it is modelled as the item list itself; `splayDraw` is the
`random.randint(0, splay)` draw; `http` the network outcome. -/
def fetch_and_cache_feed (baseTtl splayDraw : Nat)
    (cached : Option (List FeedItem)) (channel_id : String)
    (http : FetchHttp) : FetchResult :=
  let ttl := baseTtl + splayDraw
  match cached with
  | some items =>
      { result := Except.ok items, fetched := false, cacheWrite := none }
  | none =>
    match http with
    | FetchHttp.transportError =>
        { result := Except.error FetchErr.httpError, fetched := true,
          cacheWrite := none }
    | FetchHttp.response status doc =>
      if status < 200 ∨ 300 ≤ status then
        { result := Except.error FetchErr.statusError, fetched := true,
          cacheWrite := none }
      else
        match doc with
        | none =>
            { result := Except.ok [], fetched := true, cacheWrite := none }
        | some entries =>
          let items := entries.filterMap (parse_entry channel_id)
          { result := Except.ok items, fetched := true,
            cacheWrite := some (feed_cache_key channel_id, ttl, items) }

/-! ## Order facts about the sorted pipeline -/

theorem keyLtB_asymm {p q : Int × String} (h : keyLtB p q = true) :
    keyLtB q p = false := by
  by_contra hc
  rw [Bool.not_eq_false] at hc
  have := keyLtB_trans h hc
  rw [keyLtB_irrefl] at this
  exact Bool.noConfusion this

theorem sorted_items_perm (feeds : List (List FeedItem)) (inc : Bool) :
    (sorted_items feeds inc).Perm (filtered_items feeds inc) :=
  sortDesc_perm _

theorem sorted_items_pairwise (feeds : List (List FeedItem)) (inc : Bool) :
    (sorted_items feeds inc).Pairwise (fun a b => descLe a b = true) :=
  sortDesc_pairwise _

/-- Under pairwise-distinct sort keys the sorted sequence is strictly
descending. -/
theorem sorted_items_strict (feeds : List (List FeedItem)) (inc : Bool)
    (hnd : ((filtered_items feeds inc).map itemKey).Nodup) :
    (sorted_items feeds inc).Pairwise
      (fun a b => keyLtB (itemKey b) (itemKey a) = true) := by
  have hnd2 : ((sorted_items feeds inc).map itemKey).Nodup :=
    (((sorted_items_perm feeds inc).map itemKey).nodup_iff).mpr hnd
  have hne : (sorted_items feeds inc).Pairwise
      (fun a b => itemKey a ≠ itemKey b) := List.pairwise_map.mp hnd2
  have hboth := (sorted_items_pairwise feeds inc).and hne
  refine hboth.imp ?_
  intro a b hab
  rcases hab with ⟨hle, hne2⟩
  simp only [descLe, Bool.not_eq_true'] at hle
  rcases keyLtB_total (itemKey a) (itemKey b) with h | h | h
  · rw [hle] at h; exact Bool.noConfusion h
  · exact h
  · exact absurd h hne2

/-- In a strictly descending list decomposed around `x`, filtering for
keys strictly below `x` yields exactly the part after `x`. -/
theorem filter_strict_suffix (A B : List FeedItem) (x : FeedItem)
    (hstrict : (A ++ x :: B).Pairwise
      (fun a b => keyLtB (itemKey b) (itemKey a) = true)) :
    (A ++ x :: B).filter (fun i => keyLtB (itemKey i) (itemKey x)) = B := by
  obtain ⟨hA, hxB, hcross⟩ := List.pairwise_append.mp hstrict
  rw [List.filter_append]
  have hAnil : A.filter (fun i => keyLtB (itemKey i) (itemKey x)) = [] := by
    rw [List.filter_eq_nil_iff]
    intro a ha
    have hax : keyLtB (itemKey x) (itemKey a) = true :=
      hcross a ha x (by simp)
    rw [keyLtB_asymm hax]
    exact fun hc => Bool.noConfusion hc
  have hxcons : (x :: B).filter (fun i => keyLtB (itemKey i) (itemKey x)) = B := by
    rw [List.filter_cons,
      if_neg (show ¬(keyLtB (itemKey x) (itemKey x) = true) from by
        rw [keyLtB_irrefl]; exact fun h => Bool.noConfusion h)]
    apply List.filter_eq_self.mpr
    intro b hb
    exact (List.pairwise_cons.mp hxB).1 b hb
  rw [hAnil, hxcons, List.nil_append]

/-- The cursor bound of a whole-second boundary item is exactly the strict
key order against that item. -/
theorem beforeCursor_eq_keyLtB (x i : FeedItem)
    (hx : x.published % 1000000 = 0) :
    beforeCursor (tOf x) x.video_id i = keyLtB (itemKey i) (itemKey x) := by
  have hdvd : (1000000 : Int) ∣ x.published := Int.dvd_of_emod_eq_zero hx
  have hmul : tOf x * 1000000 = x.published := by
    rw [tOf, Int.tdiv_eq_ediv_of_dvd hdvd, Int.ediv_mul_cancel hdvd]
  rw [beforeCursor, keyLtB, hmul]
  rfl

/-! ## Page-chain iteration (the spec's pagination-completeness walk) -/

/-- Repeatedly call `aggregate_feeds`, starting from a given cursor and
following `next_cursor` until it is absent, concatenating the pages.  The
fuel only drives the recursion. -/
def chainPages (feeds : List (List FeedItem)) (include_shorts : Bool)
    (limit : Nat) : Nat → Option String → Except String (List FeedItem)
  | 0, _ => Except.error "fuel exhausted"
  | fuel + 1, cursor =>
    match aggregate_feeds feeds include_shorts limit cursor with
    | Except.error e => Except.error e
    | Except.ok (page, none) => Except.ok page
    | Except.ok (page, some c) =>
      match chainPages feeds include_shorts limit fuel (some c) with
      | Except.ok restItems => Except.ok (page ++ restItems)
      | Except.error e => Except.error e

/-- The full pagination walk from no cursor, with enough fuel for any
input. -/
def paginate_all (feeds : List (List FeedItem)) (include_shorts : Bool)
    (limit : Nat) : Except String (List FeedItem) :=
  chainPages feeds include_shorts limit ((flat_items feeds).length + 1) none

theorem aggregate_of_bounded (feeds : List (List FeedItem)) (inc : Bool)
    (limit : Nat) (cursor : Option String) (items : List FeedItem)
    (hb : bounded_items feeds inc cursor = Except.ok items) :
    aggregate_feeds feeds inc limit cursor =
      if limit < items.length then
        match (items.take limit).getLast? with
        | some x => Except.ok (items.take limit, some (make_cursor x))
        | none => Except.error "IndexError: list index out of range"
      else Except.ok (items.take limit, none) := by
  unfold aggregate_feeds
  rw [hb]

theorem bounded_items_none (feeds : List (List FeedItem)) (inc : Bool) :
    bounded_items feeds inc none = Except.ok (sorted_items feeds inc) := rfl

theorem bounded_items_make_cursor (feeds : List (List FeedItem)) (inc : Bool)
    (x : FeedItem) :
    bounded_items feeds inc (some (make_cursor x)) =
      Except.ok ((sorted_items feeds inc).filter
        (fun i => beforeCursor (tOf x) x.video_id i)) := by
  rw [bounded_items,
    if_neg (by
      have := make_cursor_ne_empty x
      simp only [beq_iff_eq]
      exact fun hc => this hc),
    decode_make_cursor]

/-- Completeness of the cursor walk over a strictly-descending suffix: if
the current cursor bounds the sorted sequence to the suffix `B`, the chain
returns exactly `B`. -/
theorem chainPages_suffix (feeds : List (List FeedItem)) (inc : Bool)
    (limit : Nat) (hlim : 0 < limit)
    (hsec : ∀ i ∈ filtered_items feeds inc, i.published % 1000000 = 0)
    (hnd : ((filtered_items feeds inc).map itemKey).Nodup) :
    ∀ fuel (A B : List FeedItem) (cursor : Option String),
      sorted_items feeds inc = A ++ B →
      bounded_items feeds inc cursor = Except.ok B →
      B.length < fuel →
      chainPages feeds inc limit fuel cursor = Except.ok B := by
  intro fuel
  induction fuel with
  | zero => intro A B cursor hAB hb hfuel; omega
  | succ f ih =>
    intro A B cursor hAB hb hfuel
    show (match aggregate_feeds feeds inc limit cursor with
      | Except.error e => Except.error e
      | Except.ok (page, none) => Except.ok page
      | Except.ok (page, some c) =>
        match chainPages feeds inc limit f (some c) with
        | Except.ok restItems => Except.ok (page ++ restItems)
        | Except.error e => Except.error e) = Except.ok B
    rw [aggregate_of_bounded feeds inc limit cursor B hb]
    by_cases hcmp : limit < B.length
    · rw [if_pos hcmp]
      have hlt : limit - 1 < B.length := by omega
      have htake : B.take limit = B.take (limit - 1) ++ [B.get ⟨limit - 1, hlt⟩] := by
        conv_lhs => rw [show limit = limit - 1 + 1 from by omega]
        rw [List.take_succ, List.getElem?_eq_getElem hlt]
        rfl
      set x := B.get ⟨limit - 1, hlt⟩ with hxdef
      rw [htake, List.getLast?_concat]
      have hdrop : B.drop limit = B.drop (limit - 1 + 1) := by
        rw [show limit - 1 + 1 = limit from by omega]
      have hBsplit : B = B.take (limit - 1) ++ x :: B.drop limit := by
        conv_lhs => rw [← List.take_append_drop limit B]
        rw [htake, List.append_assoc]
        rfl
      have hsplit : sorted_items feeds inc =
          (A ++ B.take (limit - 1)) ++ x :: B.drop limit := by
        rw [hAB, List.append_assoc, ← hBsplit]
      have hxmem : x ∈ filtered_items feeds inc := by
        have hxs : x ∈ sorted_items feeds inc := by
          rw [hsplit]
          simp
        exact (sorted_items_perm feeds inc).mem_iff.mp hxs
      have hbound2 : bounded_items feeds inc (some (make_cursor x)) =
          Except.ok (B.drop limit) := by
        rw [bounded_items_make_cursor]
        have hfc : (sorted_items feeds inc).filter
            (fun i => beforeCursor (tOf x) x.video_id i) =
            (sorted_items feeds inc).filter
            (fun i => keyLtB (itemKey i) (itemKey x)) :=
          List.filter_congr (fun i _ =>
            beforeCursor_eq_keyLtB x i (hsec x hxmem))
        rw [hfc, hsplit,
          filter_strict_suffix _ _ _ (hsplit ▸ sorted_items_strict feeds inc hnd)]
      have hrec := ih (A ++ B.take limit) (B.drop limit) (some (make_cursor x))
        (by rw [hAB, List.append_assoc, List.take_append_drop])
        hbound2
        (by
          rw [List.length_drop]
          omega)
      show (match chainPages feeds inc limit f (some (make_cursor x)) with
        | Except.ok restItems =>
            Except.ok ((B.take (limit - 1) ++ [x]) ++ restItems)
        | Except.error e => Except.error e) = Except.ok B
      rw [hrec, ← htake]
      show Except.ok (B.take limit ++ B.drop limit) = Except.ok B
      rw [List.take_append_drop]
    · rw [if_neg hcmp, List.take_of_length_le (by omega)]
      try rfl

/-- Pagination completeness under the amended hypotheses. -/
theorem paginate_all_eq (feeds : List (List FeedItem)) (inc : Bool)
    (limit : Nat) (hlim : 0 < limit)
    (hsec : ∀ i ∈ filtered_items feeds inc, i.published % 1000000 = 0)
    (hnd : ((filtered_items feeds inc).map itemKey).Nodup) :
    paginate_all feeds inc limit = Except.ok (sorted_items feeds inc) := by
  rw [paginate_all]
  apply chainPages_suffix feeds inc limit hlim hsec hnd _ [] _ none
  · rw [List.nil_append]
  · exact bounded_items_none feeds inc
  · have h1 : (sorted_items feeds inc).length =
        (filtered_items feeds inc).length :=
      (sorted_items_perm feeds inc).length_eq
    have h2 : (filtered_items feeds inc).length ≤ (flat_items feeds).length := by
      rw [filtered_items]
      by_cases hin : inc
      · rw [if_pos hin]
      · rw [if_neg hin]
        exact List.length_filter_le _ _
    omega

/-! ## Page structure facts -/

theorem bounded_items_pairwise (feeds : List (List FeedItem)) (inc : Bool)
    (cursor : Option String) (items : List FeedItem)
    (hb : bounded_items feeds inc cursor = Except.ok items) :
    items.Pairwise (fun a b => descLe a b = true) := by
  cases cursor with
  | none =>
    rw [bounded_items_none] at hb
    cases hb
    exact sorted_items_pairwise feeds inc
  | some c =>
    rw [bounded_items] at hb
    split_ifs at hb with hce
    · cases hb
      exact sorted_items_pairwise feeds inc
    · cases hdc : decode_cursor c with
      | none => rw [hdc] at hb; exact Except.noConfusion hb
      | some tv =>
        rw [hdc] at hb
        cases hb
        exact List.Pairwise.sublist (List.filter_sublist _) (sorted_items_pairwise feeds inc)

/-- Every successful call's page is a take of the bounded sequence, with
`next_cursor` present exactly when items remain, encoding the last page
item. -/
theorem aggregate_page_spec (feeds : List (List FeedItem)) (inc : Bool)
    (limit : Nat) (cursor : Option String) (page : List FeedItem)
    (nc : Option String)
    (ha : aggregate_feeds feeds inc limit cursor = Except.ok (page, nc)) :
    ∃ items, bounded_items feeds inc cursor = Except.ok items ∧
      page = items.take limit ∧
      (nc.isSome ↔ limit < items.length) ∧
      (∀ c, nc = some c → ∃ x, page.getLast? = some x ∧ c = make_cursor x ∧
        decode_cursor c = some (tOf x, x.video_id)) := by
  cases hb : bounded_items feeds inc cursor with
  | error e =>
    unfold aggregate_feeds at ha
    rw [hb] at ha
    exact Except.noConfusion ha
  | ok items =>
    rw [aggregate_of_bounded feeds inc limit cursor items hb] at ha
    refine ⟨items, rfl, ?_⟩
    by_cases hcmp : limit < items.length
    · rw [if_pos hcmp] at ha
      cases hL : (items.take limit).getLast? with
      | none => rw [hL] at ha; exact Except.noConfusion ha
      | some x =>
        rw [hL] at ha
        simp only [Except.ok.injEq, Prod.mk.injEq] at ha
        obtain ⟨hpage, hnc⟩ := ha
        subst hpage
        refine ⟨rfl, ?_, ?_⟩
        · rw [← hnc]
          simp [hcmp]
        · intro c hc
          rw [← hnc] at hc
          cases hc
          exact ⟨x, hL, rfl, decode_make_cursor x⟩
    · rw [if_neg hcmp] at ha
      simp only [Except.ok.injEq, Prod.mk.injEq] at ha
      obtain ⟨hpage, hnc⟩ := ha
      subst hpage
      refine ⟨rfl, ?_, ?_⟩
      · rw [← hnc]
        simp [hcmp]
      · intro c hc
        rw [← hnc] at hc
        exact Option.noConfusion hc

theorem aggregate_page_pairwise (feeds : List (List FeedItem)) (inc : Bool)
    (limit : Nat) (cursor : Option String) (page : List FeedItem)
    (nc : Option String)
    (ha : aggregate_feeds feeds inc limit cursor = Except.ok (page, nc)) :
    page.Pairwise (fun a b => descLe a b = true) := by
  obtain ⟨items, hb, hpage, _, _⟩ := aggregate_page_spec feeds inc limit cursor
    page nc ha
  subst hpage
  exact List.Pairwise.sublist (List.take_sublist _ _)
    (bounded_items_pairwise feeds inc cursor items hb)

/-- Membership in a bounded sequence comes from the filtered flattening,
with the cursor bound when one applies. -/
theorem bounded_items_mem (feeds : List (List FeedItem)) (inc : Bool)
    (cursor : Option String) (items : List FeedItem) (x : FeedItem)
    (hb : bounded_items feeds inc cursor = Except.ok items) (hx : x ∈ items) :
    x ∈ filtered_items feeds inc := by
  cases cursor with
  | none =>
    rw [bounded_items_none] at hb
    cases hb
    exact (sorted_items_perm feeds inc).mem_iff.mp hx
  | some c =>
    rw [bounded_items] at hb
    split_ifs at hb with hce
    · cases hb
      exact (sorted_items_perm feeds inc).mem_iff.mp hx
    · cases hdc : decode_cursor c with
      | none => rw [hdc] at hb; exact Except.noConfusion hb
      | some tv =>
        rw [hdc] at hb
        cases hb
        exact (sorted_items_perm feeds inc).mem_iff.mp
          (List.mem_of_mem_filter hx)

theorem filtered_items_false_mem (feeds : List (List FeedItem)) (x : FeedItem)
    (hx : x ∈ filtered_items feeds false) :
    x ∈ flat_items feeds ∧ is_short x = false := by
  rw [filtered_items, if_neg (by simp)] at hx
  have h2 := List.of_mem_filter hx
  refine ⟨List.mem_of_mem_filter hx, ?_⟩
  simp only [Bool.not_eq_true'] at h2
  exact h2

/-- Whatever the include-shorts=False call returned, its items also sit in
the include-shorts=True bounded (pre-truncation) sequence for the same
cursor. -/
theorem bounded_true_of_false (feeds : List (List FeedItem))
    (cursor : Option String) (items : List FeedItem) (x : FeedItem)
    (hb : bounded_items feeds false cursor = Except.ok items)
    (hx : x ∈ items) :
    ∃ itemsT, bounded_items feeds true cursor = Except.ok itemsT ∧
      x ∈ itemsT := by
  have hxflat : x ∈ flat_items feeds :=
    (filtered_items_false_mem feeds x
      (bounded_items_mem feeds false cursor items x hb hx)).1
  have hxsortedT : x ∈ sorted_items feeds true := by
    apply (sorted_items_perm feeds true).mem_iff.mpr
    rw [filtered_items, if_pos rfl]
    exact hxflat
  cases cursor with
  | none => exact ⟨sorted_items feeds true, rfl, hxsortedT⟩
  | some c =>
    rw [bounded_items] at hb ⊢
    split_ifs at hb ⊢ with hce
    · cases hb
      exact ⟨sorted_items feeds true, rfl, hxsortedT⟩
    · cases hdc : decode_cursor c with
      | none => rw [hdc] at hb; exact Except.noConfusion hb
      | some tv =>
        rw [hdc] at hb
        obtain ⟨t, v⟩ := tv
        change Except.ok ((sorted_items feeds false).filter
          (fun i => beforeCursor t v i)) = Except.ok items at hb
        cases hb
        refine ⟨(sorted_items feeds true).filter
          (fun i => beforeCursor t v i), rfl, ?_⟩
        exact List.mem_filter.mpr ⟨hxsortedT, List.of_mem_filter hx⟩

/-! ## Concrete sample data for witnesses and counterexamples -/

/-- A regular item published 2024-01-15T12:00:00+00:00 (whole seconds). -/
def sampleItem : FeedItem :=
  { video_id := "video123", channel_id := "UCabc", title := "Title",
    link := "https://www.youtube.com/watch?v=video123",
    published := 1705320000000000 }

/-- A regular item one day older. -/
def olderItem : FeedItem :=
  { video_id := "older456", channel_id := "UCabc", title := "Older",
    link := "https://www.youtube.com/watch?v=older456",
    published := 1705233600000000 }

/-- A Short newer than both regular items. -/
def shortItem : FeedItem :=
  { video_id := "short789", channel_id := "UCabc", title := "Short",
    link := "https://www.youtube.com/shorts/short789",
    published := 1705406400000000 }

/-- An item at 100.5 seconds after the epoch (a fractional timestamp). -/
def fracItemB : FeedItem :=
  { video_id := "bbb", channel_id := "UCabc", title := "B",
    link := "https://www.youtube.com/watch?v=bbb",
    published := 100500000 }

/-- An item at 100.2 seconds after the epoch, older than `fracItemB`. -/
def fracItemA : FeedItem :=
  { video_id := "aaa", channel_id := "UCabc", title := "A",
    link := "https://www.youtube.com/watch?v=aaa",
    published := 100200000 }

/-- Feed entry whose published timestamp ends in the Zulu marker. -/
def zEntry : RawEntry :=
  { videoId := some "vidZ",
    linkHref := some "https://www.youtube.com/watch?v=vidZ",
    title := some "T", published := some "2024-01-15T12:00:00Z" }

/-- The same entry with the explicit zero UTC offset. -/
def plusEntry : RawEntry :=
  { videoId := some "vidZ",
    linkHref := some "https://www.youtube.com/watch?v=vidZ",
    title := some "T", published := some "2024-01-15T12:00:00+00:00" }

/-! ## The claims -/

/-- C1 (counterexample): pagination completeness fails on the code as
stated.  With duplicate `(published, video_id)` keys across feeds the
strict cursor bound drops the second copy (walk yields one item, the
sorted flattening has two); with fractional-second timestamps the
truncated cursor drops strictly older same-second items (walk yields
`[fracItemB]`, the sorted flattening is `[fracItemB, fracItemA]`). -/
theorem C1_counterexample :
    (paginate_all [[sampleItem], [sampleItem]] false 1 =
        Except.ok [sampleItem] ∧
      sorted_items [[sampleItem], [sampleItem]] false =
        [sampleItem, sampleItem] ∧
      ([sampleItem] : List FeedItem) ≠ [sampleItem, sampleItem]) ∧
    (paginate_all [[fracItemB, fracItemA]] false 1 =
        Except.ok [fracItemB] ∧
      sorted_items [[fracItemB, fracItemA]] false = [fracItemB, fracItemA] ∧
      ([fracItemB] : List FeedItem) ≠ [fracItemB, fracItemA]) :=
  ⟨⟨rfl, rfl, by decide⟩, ⟨rfl, rfl, by decide⟩⟩

/-- C1 (amended): for every feeds input, `include_shorts` flag and positive
limit, provided the filtered items have whole-second timestamps and
pairwise-distinct `(published, video_id)` keys, the concatenation of all
pages obtained by following `next_cursor` from no cursor until it is
absent is exactly the shorts-filtered, key-descending-sorted flattening of
the input — no duplicates, no omissions. -/
theorem C1_pagination_completeness (feeds : List (List FeedItem))
    (inc : Bool) (limit : Nat) (hlim : 0 < limit)
    (hsec : ∀ i ∈ filtered_items feeds inc, i.published % 1000000 = 0)
    (hnd : ((filtered_items feeds inc).map itemKey).Nodup) :
    paginate_all feeds inc limit = Except.ok (sorted_items feeds inc) :=
  paginate_all_eq feeds inc limit hlim hsec hnd

/-- C1 witness: the completeness theorem applied to a concrete two-item
feed at limit 1. -/
theorem C1_pagination_completeness_witness :
    paginate_all [[sampleItem, olderItem]] false 1 =
      Except.ok (sorted_items [[sampleItem, olderItem]] false) :=
  C1_pagination_completeness [[sampleItem, olderItem]] false 1
    (by decide) (by decide) (by decide)

/-- C2: the `get_feed` boundary validation rejects the aggregator's own
cursors.  `make_cursor sampleItem` is well-formed — `decode_cursor`
recovers its pair — yet `validate_cursor` returns `false` (HTTP 400): the
validator demands a `|`-separated payload and the standard base64
alphabet, while `make_cursor` emits urlsafe base64 over JSON, which
contains no `|`. -/
theorem C2_boundary_rejects_own_cursor :
    validate_cursor (some (make_cursor sampleItem)) = false ∧
    decode_cursor (make_cursor sampleItem) =
      some (1705320000, "video123") :=
  ⟨rfl, rfl⟩

/-- C3: cursor round trip — for every item, decoding its encoded cursor
yields exactly the truncated-to-integer-seconds timestamp
(`int(x.published.timestamp())`, which is `tOf`) and the video id. -/
theorem C3_cursor_roundtrip (x : FeedItem) :
    decode_cursor (make_cursor x) = some (tOf x, x.video_id) :=
  decode_make_cursor x

/-- C4: every page a successful `aggregate_feeds` call returns is
non-increasing under the two-key `(published, video_id)` order (descending
on both keys — `descLe` is the negation of the strict lexicographic order,
so equal timestamps put the larger video id first), and two calls on
identical input with no cursor return identical results. -/
theorem C4_sort_invariant_and_determinism :
    (∀ (feeds : List (List FeedItem)) (inc : Bool) (limit : Nat)
        (cursor : Option String) (page : List FeedItem) (nc : Option String),
        aggregate_feeds feeds inc limit cursor = Except.ok (page, nc) →
        page.Pairwise (fun a b => descLe a b = true)) ∧
    (∀ (feeds : List (List FeedItem)) (inc : Bool) (limit : Nat)
        (r1 r2 : Except String (List FeedItem × Option String)),
        aggregate_feeds feeds inc limit none = r1 →
        aggregate_feeds feeds inc limit none = r2 → r1 = r2) := by
  constructor
  · exact fun feeds inc limit cursor page nc ha =>
      aggregate_page_pairwise feeds inc limit cursor page nc ha
  · intro feeds inc limit r1 r2 h1 h2
    rw [← h1, ← h2]

/-- C4 witness: the sort invariant and determinism at a concrete
two-item call. -/
theorem C4_witness :
    List.Pairwise (fun a b => descLe a b = true) [sampleItem, olderItem] ∧
    (Except.ok ([sampleItem, olderItem], (none : Option String)) :
        Except String (List FeedItem × Option String)) =
      Except.ok ([sampleItem, olderItem], none) :=
  ⟨C4_sort_invariant_and_determinism.1 [[olderItem, sampleItem]] false 5 none
      [sampleItem, olderItem] none rfl,
    C4_sort_invariant_and_determinism.2 [[olderItem, sampleItem]] false 5
      (Except.ok ([sampleItem, olderItem], none))
      (Except.ok ([sampleItem, olderItem], none)) rfl rfl⟩

/-- C5: a successful page is exactly the first `limit` items of the
filtered, ordered, cursor-bounded sequence; `next_cursor` is present iff
that sequence is strictly longer than `limit`, and when present it is
`make_cursor` of the last page item, decoding to that item's
truncated-seconds timestamp and video id. -/
theorem C5_page_and_next_cursor (feeds : List (List FeedItem)) (inc : Bool)
    (limit : Nat) (cursor : Option String) (page : List FeedItem)
    (nc : Option String)
    (ha : aggregate_feeds feeds inc limit cursor = Except.ok (page, nc)) :
    ∃ items, bounded_items feeds inc cursor = Except.ok items ∧
      page = items.take limit ∧
      (nc.isSome ↔ limit < items.length) ∧
      (∀ c, nc = some c → ∃ x, page.getLast? = some x ∧ c = make_cursor x ∧
        decode_cursor c = some (tOf x, x.video_id)) :=
  aggregate_page_spec feeds inc limit cursor page nc ha

/-- C5 witness: the page/cursor characterization at a concrete call whose
`next_cursor` is present. -/
theorem C5_witness :
    ∃ items, bounded_items [[sampleItem, olderItem]] false none =
        Except.ok items ∧
      [sampleItem] = items.take 1 ∧
      ((some (make_cursor sampleItem)).isSome ↔ 1 < items.length) ∧
      (∀ c, some (make_cursor sampleItem) = some c →
        ∃ x, ([sampleItem] : List FeedItem).getLast? = some x ∧
          c = make_cursor x ∧ decode_cursor c = some (tOf x, x.video_id)) :=
  C5_page_and_next_cursor [[sampleItem, olderItem]] false 1 none
    [sampleItem] (some (make_cursor sampleItem)) rfl

/-- C6 (counterexample): with identical feeds, limit and cursor the
returned item set with `include_shorts=True` is not a superset of the one
with `include_shorts=False`: at limit 1 a newer Short displaces the older
regular item off the page. -/
theorem C6_counterexample :
    aggregate_feeds [[shortItem, olderItem]] true 1 none =
      Except.ok ([shortItem], some (make_cursor shortItem)) ∧
    aggregate_feeds [[shortItem, olderItem]] false 1 none =
      Except.ok ([olderItem], none) ∧
    olderItem ∉ ([shortItem] : List FeedItem) :=
  ⟨rfl, rfl, by decide⟩

/-- C6 (amended): every item of a page returned with
`include_shorts=False` is not short-form; and, for identical feeds and
cursor, every such item also belongs to the pre-truncation cursor-bounded
sequence of the `include_shorts=True` call (the page-level superset can
fail only through `limit` truncation, as the counterexample shows). -/
theorem C6_shorts_filter :
    (∀ (feeds : List (List FeedItem)) (limit : Nat) (cursor : Option String)
        (page : List FeedItem) (nc : Option String),
        aggregate_feeds feeds false limit cursor = Except.ok (page, nc) →
        ∀ x ∈ page, is_short x = false) ∧
    (∀ (feeds : List (List FeedItem)) (limit : Nat) (cursor : Option String)
        (page : List FeedItem) (nc : Option String) (x : FeedItem),
        aggregate_feeds feeds false limit cursor = Except.ok (page, nc) →
        x ∈ page →
        ∃ itemsT, bounded_items feeds true cursor = Except.ok itemsT ∧
          x ∈ itemsT) := by
  constructor
  · intro feeds limit cursor page nc ha x hx
    obtain ⟨items, hb, hpage, _, _⟩ :=
      aggregate_page_spec feeds false limit cursor page nc ha
    subst hpage
    have hxi : x ∈ items := (List.take_sublist _ _).subset hx
    exact (filtered_items_false_mem feeds x
      (bounded_items_mem feeds false cursor items x hb hxi)).2
  · intro feeds limit cursor page nc x ha hx
    obtain ⟨items, hb, hpage, _, _⟩ :=
      aggregate_page_spec feeds false limit cursor page nc ha
    subst hpage
    exact bounded_true_of_false feeds cursor items x hb
      ((List.take_sublist _ _).subset hx)

/-- C6 witness: both conjuncts applied at a concrete call. -/
theorem C6_witness :
    is_short olderItem = false ∧
    (∃ itemsT, bounded_items [[shortItem, olderItem]] true none =
        Except.ok itemsT ∧ olderItem ∈ itemsT) :=
  ⟨C6_shorts_filter.1 [[shortItem, olderItem]] 1 none [olderItem] none rfl
      olderItem (by decide),
    C6_shorts_filter.2 [[shortItem, olderItem]] 1 none [olderItem] none
      olderItem rfl (by decide)⟩

/-- C7: `aggregate_feeds` does not reject `limit = 0` as invalid input —
on a non-empty feed it crashes with an `IndexError` from `page[-1]`
instead; the HTTP boundary is where `limit = 0` is refused
(`Query(ge=1)`). -/
theorem C7_limit_zero_crash :
    aggregate_feeds [[sampleItem]] false 0 none =
      Except.error "IndexError: list index out of range" ∧
    limit_valid 0 = false :=
  ⟨rfl, rfl⟩

/-- C8: in `fetch_and_cache_feed` content malformation is recovered and
transport failure is not: a document-level parse failure yields `ok []`;
a parsed document yields exactly the entries the per-entry parser
accepts, and an entry with a missing or empty required field is skipped;
a trailing Zulu marker is normalized to a `+00:00` offset before parsing;
transport errors and non-2xx statuses are raised, never returned as
lists. -/
theorem C8_content_vs_transport :
    (∀ base draw cid status, 200 ≤ status → status < 300 →
      (fetch_and_cache_feed base draw none cid
        (FetchHttp.response status none)).result = Except.ok []) ∧
    (∀ base draw cid status entries, 200 ≤ status → status < 300 →
      (fetch_and_cache_feed base draw none cid
        (FetchHttp.response status (some entries))).result =
        Except.ok (entries.filterMap (parse_entry cid))) ∧
    (∀ cid e, (e.videoId = none ∨ e.linkHref = none ∨ e.title = none ∨
        e.published = none ∨ e.videoId = some "" ∨ e.linkHref = some "" ∨
        e.title = some "" ∨ e.published = some "") →
      parse_entry cid e = none) ∧
    (parse_entry "UCabc" zEntry = parse_entry "UCabc" plusEntry ∧
      (parse_entry "UCabc" zEntry).isSome = true) ∧
    (∀ base draw cid,
      (fetch_and_cache_feed base draw none cid
        FetchHttp.transportError).result = Except.error FetchErr.httpError) ∧
    (∀ base draw cid status doc, status < 200 ∨ 300 ≤ status →
      (fetch_and_cache_feed base draw none cid
        (FetchHttp.response status doc)).result =
        Except.error FetchErr.statusError) := by
  refine ⟨?_, ?_, ?_, ⟨rfl, rfl⟩, ?_, ?_⟩
  · intro base draw cid status h1 h2
    simp only [fetch_and_cache_feed]
    rw [if_neg (by omega)]
  · intro base draw cid status entries h1 h2
    simp only [fetch_and_cache_feed]
    rw [if_neg (by omega)]
  · intro cid e he
    rw [parse_entry]
    rcases he with h | h | h | h | h | h | h | h <;> rw [h] <;>
      first
        | rfl
        | (cases e.videoId <;> cases e.linkHref <;> cases e.title <;>
            cases e.published <;> simp)
  · intro base draw cid
    rfl
  · intro base draw cid status doc h
    simp only [fetch_and_cache_feed]
    rw [if_pos h]

/-- C8 witness: the universally quantified conjuncts at concrete inputs. -/
theorem C8_witness :
    (fetch_and_cache_feed 1800 300 none "UCabc"
      (FetchHttp.response 200 none)).result = Except.ok [] ∧
    (fetch_and_cache_feed 1800 300 none "UCabc"
      (FetchHttp.response 200 (some [zEntry, { zEntry with title := none }]))).result =
      Except.ok ([zEntry, { zEntry with title := none }].filterMap
        (parse_entry "UCabc")) ∧
    parse_entry "UCabc" { zEntry with title := none } = none ∧
    (fetch_and_cache_feed 1800 300 none "UCabc"
      FetchHttp.transportError).result = Except.error FetchErr.httpError ∧
    (fetch_and_cache_feed 1800 300 none "UCabc"
      (FetchHttp.response 404 none)).result =
      Except.error FetchErr.statusError :=
  ⟨C8_content_vs_transport.1 1800 300 "UCabc" 200 (by omega) (by omega),
    C8_content_vs_transport.2.1 1800 300 "UCabc" 200 _ (by omega) (by omega),
    C8_content_vs_transport.2.2.1 "UCabc" _ (Or.inr (Or.inr (Or.inl rfl))),
    C8_content_vs_transport.2.2.2.2.1 1800 300 "UCabc",
    C8_content_vs_transport.2.2.2.2.2 1800 300 "UCabc" 404 none
      (Or.inr (by omega))⟩

/-- C9: cache side effects of `fetch_and_cache_feed`: a hit returns the
cached items with no fetch and no write; a miss never writes on a
transport error, a bad status, or a document-level parse failure; a miss
with a parsed document writes exactly once, under the channel key, the
parsed items (an empty list included), with expiry `base_ttl + draw` for
the random draw, which stays within `[base_ttl, base_ttl + splay_max]`. -/
theorem C9_cache_effects :
    (∀ base draw items cid http,
      fetch_and_cache_feed base draw (some items) cid http =
        { result := Except.ok items, fetched := false, cacheWrite := none }) ∧
    (∀ base draw cid,
      (fetch_and_cache_feed base draw none cid
        FetchHttp.transportError).cacheWrite = none) ∧
    (∀ base draw cid status doc, status < 200 ∨ 300 ≤ status →
      (fetch_and_cache_feed base draw none cid
        (FetchHttp.response status doc)).cacheWrite = none) ∧
    (∀ base draw cid status, 200 ≤ status → status < 300 →
      (fetch_and_cache_feed base draw none cid
        (FetchHttp.response status none)).cacheWrite = none) ∧
    (∀ base splayMax draw cid status entries, draw ≤ splayMax →
      200 ≤ status → status < 300 →
      (fetch_and_cache_feed base draw none cid
        (FetchHttp.response status (some entries))).cacheWrite =
          some (feed_cache_key cid, base + draw,
            entries.filterMap (parse_entry cid)) ∧
      base ≤ base + draw ∧ base + draw ≤ base + splayMax) := by
  refine ⟨fun base draw items cid http => rfl, fun base draw cid => rfl,
    ?_, ?_, ?_⟩
  · intro base draw cid status doc h
    simp only [fetch_and_cache_feed]
    rw [if_pos h]
  · intro base draw cid status h1 h2
    simp only [fetch_and_cache_feed]
    rw [if_neg (by omega)]
  · intro base splayMax draw cid status entries hd h1 h2
    refine ⟨?_, by omega, by omega⟩
    simp only [fetch_and_cache_feed]
    rw [if_neg (by omega)]

/-- C9 witness: the side-effect characterization at concrete inputs,
including a parsed-but-empty document still being cached. -/
theorem C9_witness :
    fetch_and_cache_feed 1800 300 (some [sampleItem]) "UCabc"
      FetchHttp.transportError =
      { result := Except.ok [sampleItem], fetched := false,
        cacheWrite := none } ∧
    (fetch_and_cache_feed 1800 300 none "UCabc"
      (FetchHttp.response 200 (some []))).cacheWrite =
      some (feed_cache_key "UCabc", 2100,
        ([] : List RawEntry).filterMap (parse_entry "UCabc")) :=
  ⟨C9_cache_effects.1 1800 300 [sampleItem] "UCabc" FetchHttp.transportError,
    (C9_cache_effects.2.2.2.2 1800 780 300 "UCabc" 200 [] (by omega)
      (by omega) (by omega)).1⟩

/-- C10: an empty-string cursor is falsy in Python, so `aggregate_feeds`
treats it exactly like an absent cursor (no filtering, no decode error),
and the `get_feed` boundary skips cursor validation for it. -/
theorem C10_empty_cursor (feeds : List (List FeedItem)) (inc : Bool)
    (limit : Nat) :
    aggregate_feeds feeds inc limit (some "") =
      aggregate_feeds feeds inc limit none ∧
    validate_cursor (some "") = true :=
  ⟨rfl, rfl⟩

end YtFeed
